import Mathlib

/-!
Verification development for the task-result cache proxy (gulp-cache fork
with a many-to-many mode).  The JavaScript sources are shallowly embedded:

* `src/lib/TaskProxy.js`  — the orchestrator (`processFiles`,
  `_checkForCachedValue`, `_runProxiedTask`, `_getValueFromResult`,
  `_storeCachedResult`, `removeCachedResult`, `makeHash`);
* the plugin entry file — `fileToObj`, `restoreFileFromObj`,
  `defaultOptions` and the two stream entry points (`cacheTask`,
  `cacheTask.clear`).

Modelling conventions:

* Promises are collapsed: every invocation is a single sequential chain, so
  asynchronous steps become ordinary function composition.  A promise
  rejection becomes an `Outcome.rejected`; a task that never signals
  completion becomes `Outcome.pending`.
* JSON-serializable JavaScript values are the inductive `JVal`.  The stored
  textual form is modelled at the tree level: `JSON.parse` after
  `JSON.stringify` is the identity on JSON trees, so a stored entry keeps
  the serialized tree (`JStored.json`) or, when the extracted value was
  already a string, the raw string (`JStored.rawStr`).
* Buffers are byte lists; `JSON.stringify` turns a Buffer into
  an object with a type tag and a data array of byte values, which is what
  `bufferToJVal` produces.
* Vinyl `File` objects (external dependency, out of scope for the spec) are
  `VFile`: plain own fields `cwd`, `base`, `stat`, `contents`, `history`
  plus task-added own properties `extras`; `path` is the accessor returning
  the last history entry, and assigning a path appends to the history when
  it differs (vinyl 1.x semantics, the version this code depends on).
-/

namespace GulpCache

/-- JSON-serializable JavaScript values (the structured wire form). -/
inductive JVal where
  | null
  | bool (b : Bool)
  | num (n : Int)
  | str (s : String)
  | arr (elems : List JVal)
  | obj (fields : List (String × JVal))

/-- JavaScript truthiness of a `JVal` (NaN is not modelled). -/
def JVal.truthy : JVal → Bool
  | .null => false
  | .bool b => b
  | .num n => n != 0
  | .str s => s != ""
  | .arr _ => true
  | .obj _ => true

/-- Truthiness of a possibly-undefined value (`none` = `undefined`). -/
def truthyOpt : Option JVal → Bool
  | none => false
  | some v => v.truthy

/-- JavaScript strict equality between a possibly-undefined `JVal` and a
possibly-undefined string. -/
def jsEqStrOpt : Option JVal → Option String → Bool
  | none, none => true
  | some (.str s), some p => s == p
  | _, _ => false

/-- First-match field lookup in an object's field list. -/
def lookupField : List (String × JVal) → String → Option JVal
  | [], _ => none
  | (k, v) :: rest, key => if k = key then some v else lookupField rest key

/-- Whether an object's field list contains a key. -/
def hasField (fs : List (String × JVal)) (key : String) : Bool :=
  (lookupField fs key).isSome

/-- Property assignment: update the key in place or append it. -/
def setField (fs : List (String × JVal)) (key : String) (v : JVal) :
    List (String × JVal) :=
  if hasField fs key then
    fs.map (fun kv => if kv.fst = key then (key, v) else kv)
  else
    fs ++ [(key, v)]

/-- Property deletion at serialization time (an own property holding
`undefined` is dropped by `JSON.stringify`). -/
def dropField (fs : List (String × JVal)) (key : String) :
    List (String × JVal) :=
  fs.filter (fun kv => kv.fst ≠ key)

/-- `objectAssign(target, source)` on field lists: source keys overwrite
in place, new keys are appended in source order. -/
def assignFields (tgt src : List (String × JVal)) : List (String × JVal) :=
  (tgt.map (fun kv => match lookupField src kv.fst with
    | some w => (kv.fst, w)
    | none => kv))
  ++ src.filter (fun kv => ¬ hasField tgt kv.fst)

/-- The field list of an object value; property access on a non-object
yields `undefined` for every key, modelled by the empty list. -/
def toFields : JVal → List (String × JVal)
  | .obj fs => fs
  | _ => []

/-- Contents slot of an artifact: `null`, an in-memory Buffer of bytes, a
stream (rejected at the public interface), or any other value a stored
entry might have put there. -/
inductive Contents where
  | null
  | buf (bytes : List Nat)
  | stream
  | other (v : JVal)

/-- Vinyl file model: plain own fields plus task-added own properties; the
path is derived from the history (vinyl 1.x). -/
structure VFile where
  cwd : String
  base : String
  stat : JVal
  contents : Contents
  history : List String
  extras : List (String × JVal)

/-- The path accessor: last entry of the history, `undefined` when the
history is empty. -/
def VFile.path (f : VFile) : Option String := f.history.getLast?

/-- The vinyl path setter: record the new path in the history only when it
is truthy and differs from the current path. -/
def pathPush (h : List String) (p : String) : List String :=
  if p ≠ "" ∧ h.getLast? ≠ some p then h ++ [p] else h

/-- Assigning `file.path = p`. -/
def VFile.setPath (f : VFile) (p : String) : VFile :=
  { f with history := pathPush f.history p }

/-! ### Hashing and text encodings

`makeHash` in `TaskProxy.js` is an MD5 digest rendered as lowercase hex of
the UTF-8 bytes of the key string; the default key uses Node's base64
rendering of each file's contents.  Both are implemented executably. -/

/-- The base64 alphabet. -/
def base64Chars : List Char :=
  "ABCDEFGHIJKLMNOPQRSTUVWXYZabcdefghijklmnopqrstuvwxyz0123456789+/".data

/-- Character for a 6-bit group. -/
def b64Char (n : Nat) : Char := base64Chars.getD n 'A'

/-- Base64 rendering of a byte list (`Buffer.prototype.toString('base64')`),
with `=` padding. -/
def base64Encode : List Nat → String
  | [] => ""
  | [a] =>
    String.mk [b64Char (a / 4), b64Char (a % 4 * 16), '=', '=']
  | [a, b] =>
    String.mk [b64Char (a / 4), b64Char (a % 4 * 16 + b / 16),
               b64Char (b % 16 * 4), '=']
  | a :: b :: c :: rest =>
    String.mk [b64Char (a / 4), b64Char (a % 4 * 16 + b / 16),
               b64Char (b % 16 * 4 + c / 64), b64Char (c % 64)]
    ++ base64Encode rest

/-- Numeric value of a base64 character. -/
def b64Val (c : Char) : Nat := (base64Chars.indexOf c) % 64

/-- Base64 decoding groups of four characters into three bytes. -/
def base64DecodeChars : List Char → List Nat
  | a :: b :: c :: d :: rest =>
    (b64Val a * 4 + b64Val b / 16) ::
    (b64Val b % 16 * 16 + b64Val c / 4) ::
    (b64Val c % 4 * 64 + b64Val d) :: base64DecodeChars rest
  | [a, b, c] =>
    [b64Val a * 4 + b64Val b / 16, b64Val b % 16 * 16 + b64Val c / 4]
  | [a, b] => [b64Val a * 4 + b64Val b / 16]
  | _ => []

/-- Decoding of base64 text to bytes (`new Buffer(s, 'base64')`),
permissive about padding like Node. -/
def base64Decode (s : String) : List Nat :=
  base64DecodeChars (s.data.filter (fun c => c ≠ '='))

/-- UTF-8 bytes of one character. -/
def charUtf8 (c : Char) : List Nat :=
  let n := c.toNat
  if n < 128 then [n]
  else if n < 2048 then [192 + n / 64, 128 + n % 64]
  else if n < 65536 then [224 + n / 4096, 128 + n / 64 % 64, 128 + n % 64]
  else [240 + n / 262144, 128 + n / 4096 % 64, 128 + n / 64 % 64,
        128 + n % 64]

/-- UTF-8 bytes of a string (`crypto.update` treats its input as UTF-8). -/
def utf8Bytes (s : String) : List Nat := s.data.flatMap charUtf8

/-- Truncation to a 32-bit word. -/
def w32 (n : Nat) : Nat := n % 4294967296

/-- Bitwise complement within 32 bits. -/
def wnot (x : Nat) : Nat := 4294967295 - x

/-- 32-bit left rotation. -/
def rotl (x n : Nat) : Nat := w32 (x <<< n) ||| (x >>> (32 - n))

/-- MD5 sine-derived round constants. -/
def md5K : List Nat :=
  [0xd76aa478, 0xe8c7b756, 0x242070db, 0xc1bdceee,
   0xf57c0faf, 0x4787c62a, 0xa8304613, 0xfd469501,
   0x698098d8, 0x8b44f7af, 0xffff5bb1, 0x895cd7be,
   0x6b901122, 0xfd987193, 0xa679438e, 0x49b40821,
   0xf61e2562, 0xc040b340, 0x265e5a51, 0xe9b6c7aa,
   0xd62f105d, 0x02441453, 0xd8a1e681, 0xe7d3fbc8,
   0x21e1cde6, 0xc33707d6, 0xf4d50d87, 0x455a14ed,
   0xa9e3e905, 0xfcefa3f8, 0x676f02d9, 0x8d2a4c8a,
   0xfffa3942, 0x8771f681, 0x6d9d6122, 0xfde5380c,
   0xa4beea44, 0x4bdecfa9, 0xf6bb4b60, 0xbebfbc70,
   0x289b7ec6, 0xeaa127fa, 0xd4ef3085, 0x04881d05,
   0xd9d4d039, 0xe6db99e5, 0x1fa27cf8, 0xc4ac5665,
   0xf4292244, 0x432aff97, 0xab9423a7, 0xfc93a039,
   0x655b59c3, 0x8f0ccc92, 0xffeff47d, 0x85845dd1,
   0x6fa87e4f, 0xfe2ce6e0, 0xa3014314, 0x4e0811a1,
   0xf7537e82, 0xbd3af235, 0x2ad7d2bb, 0xeb86d391]

/-- MD5 per-round shift amounts. -/
def md5S : List Nat :=
  [7, 12, 17, 22, 7, 12, 17, 22, 7, 12, 17, 22, 7, 12, 17, 22,
   5, 9, 14, 20, 5, 9, 14, 20, 5, 9, 14, 20, 5, 9, 14, 20,
   4, 11, 16, 23, 4, 11, 16, 23, 4, 11, 16, 23, 4, 11, 16, 23,
   6, 10, 15, 21, 6, 10, 15, 21, 6, 10, 15, 21, 6, 10, 15, 21]

/-- MD5 nonlinear round function. -/
def md5F (i b c d : Nat) : Nat :=
  if i < 16 then (b &&& c) ||| (wnot b &&& d)
  else if i < 32 then (d &&& b) ||| (wnot d &&& c)
  else if i < 48 then b ^^^ c ^^^ d
  else c ^^^ (b ||| wnot d)

/-- MD5 message-word index per round. -/
def md5G (i : Nat) : Nat :=
  if i < 16 then i
  else if i < 32 then (5 * i + 1) % 16
  else if i < 48 then (3 * i + 5) % 16
  else (7 * i) % 16

/-- One MD5 round over the current chunk's words. -/
def md5Round (m : List Nat) (st : Nat × Nat × Nat × Nat) (i : Nat) :
    Nat × Nat × Nat × Nat :=
  let a := st.1
  let b := st.2.1
  let c := st.2.2.1
  let d := st.2.2.2
  let f := w32 (md5F i b c d + a + md5K.getD i 0 + m.getD (md5G i) 0)
  (d, w32 (b + rotl f (md5S.getD i 0)), b, c)

/-- Processing one 16-word chunk. -/
def md5Chunk (st : Nat × Nat × Nat × Nat) (m : List Nat) :
    Nat × Nat × Nat × Nat :=
  let r := (List.range 64).foldl (md5Round m) st
  (w32 (st.1 + r.1), w32 (st.2.1 + r.2.1),
   w32 (st.2.2.1 + r.2.2.1), w32 (st.2.2.2 + r.2.2.2))

/-- Little-endian bytes of a number, fixed width. -/
def leBytes (n : Nat) : Nat → List Nat
  | 0 => []
  | k + 1 => n % 256 :: leBytes (n / 256) k

/-- MD5 padding: a 1-bit, zeros to 56 mod 64, then the 64-bit bit length. -/
def md5Pad (msg : List Nat) : List Nat :=
  msg ++ 128 :: List.replicate ((119 - msg.length % 64) % 64) 0
      ++ leBytes (8 * msg.length) 8

/-- Grouping bytes into little-endian 32-bit words. -/
def leWords : List Nat → List Nat
  | b0 :: b1 :: b2 :: b3 :: rest =>
    (b0 + b1 * 256 + b2 * 65536 + b3 * 16777216) :: leWords rest
  | _ => []

/-- Grouping words into 16-word chunks (a padded message is always a
whole number of chunks). -/
def wordChunks : List Nat → List (List Nat)
  | w0 :: w1 :: w2 :: w3 :: w4 :: w5 :: w6 :: w7 ::
    w8 :: w9 :: w10 :: w11 :: w12 :: w13 :: w14 :: w15 :: rest =>
    [w0, w1, w2, w3, w4, w5, w6, w7,
     w8, w9, w10, w11, w12, w13, w14, w15] :: wordChunks rest
  | _ => []

/-- The MD5 state after absorbing a byte message. -/
def md5Run (msg : List Nat) : Nat × Nat × Nat × Nat :=
  (wordChunks (leWords (md5Pad msg))).foldl md5Chunk
    (1732584193, 4023233417, 2562383102, 271733878)

/-- Lowercase hex digit. -/
def hexChar (n : Nat) : Char :=
  if n < 10 then Char.ofNat (48 + n) else Char.ofNat (87 + n)

/-- Two hex digits of a byte. -/
def byteHex (b : Nat) : List Char := [hexChar (b / 16), hexChar (b % 16)]

/-- Hex rendering of a 32-bit word, least significant byte first. -/
def wordLEHex (w : Nat) : List Char :=
  byteHex (w % 256) ++ byteHex (w / 256 % 256) ++ byteHex (w / 65536 % 256)
    ++ byteHex (w / 16777216 % 256)

/-- The 128-bit MD5 digest of a byte message, rendered as 32 hex chars. -/
def md5hex (msg : List Nat) : String :=
  String.mk (wordLEHex (md5Run msg).1 ++ wordLEHex (md5Run msg).2.1
    ++ wordLEHex (md5Run msg).2.2.1 ++ wordLEHex (md5Run msg).2.2.2)

/-- `makeHash` from `TaskProxy.js`: md5 hex digest of the key text. -/
def makeHash (key : String) : String := md5hex (utf8Bytes key)

/-! ### Serializer / Restorer

`fileToObj` and `restoreFileFromObj` from the plugin entry file, together
with the serialization performed inside `_storeCachedResult`. -/

/-- JSON form of a Buffer under `JSON.stringify`
(`Buffer.prototype.toJSON`): a type tag and the byte values. -/
def bufferToJVal (bytes : List Nat) : JVal :=
  JVal.obj [("type", JVal.str "Buffer"),
            ("data", JVal.arr (bytes.map (fun b => JVal.num (Int.ofNat b))))]

/-- JSON form of a contents slot (streams never reach serialization: the
public interface rejects them first). -/
def contentsToJVal : Contents → JVal
  | .null => JVal.null
  | .buf bs => bufferToJVal bs
  | .stream => JVal.null
  | .other v => v

/-- The plain object produced by
`objectPick(file, ['cwd', 'base', 'contents', 'stat', 'history', 'path'])`. -/
structure FileObj where
  cwd : String
  base : String
  contents : Contents
  stat : JVal
  history : List String
  path : Option String

/-- `fileToObj` from the plugin entry file. -/
def fileToObj (f : VFile) : FileObj :=
  { cwd := f.cwd, base := f.base, contents := f.contents, stat := f.stat,
    history := f.history, path := f.path }

/-- JSON fields of a picked file object, in pick order; an undefined path
is dropped by `JSON.stringify`. -/
def fileObjFields (o : FileObj) : List (String × JVal) :=
  [("cwd", JVal.str o.cwd), ("base", JVal.str o.base),
   ("contents", contentsToJVal o.contents), ("stat", o.stat),
   ("history", JVal.arr (o.history.map JVal.str))]
  ++ (match o.path with
      | some p => [("path", JVal.str p)]
      | none => [])

/-- Byte value of a JSON array element when rebuilding a Buffer
(`new Buffer(data)` coerces each element to a byte). -/
def jnumByte : JVal → Nat
  | .num n => n.toNat % 256
  | _ => 0

/-- The contents-rewriting step at the top of `restoreFileFromObj`:
a data array, a bare array, or base64 text becomes a Buffer; falsy
contents are left for the constructor to replace with null. -/
def decodeContents (c : JVal) : Contents :=
  if c.truthy then
    match c with
    | .obj fs =>
      match lookupField fs "data" with
      | some (.arr ds) => Contents.buf (ds.map jnumByte)
      | _ => Contents.other c
    | .arr ds => Contents.buf (ds.map jnumByte)
    | .str s => Contents.buf (base64Decode s)
    | c' => Contents.other c'
  else Contents.null

/-- Replaying a path list through the vinyl path setter (the vinyl 1.x
constructor builds the history this way). -/
def replayHistory (h : List String) : List String → List String
  | [] => h
  | p :: ps => replayHistory (pathPush h p) ps

/-- The `process.cwd()` default used by the vinyl constructor. -/
def processCwd : String := "/"

/-- String members of a JSON array (the vinyl setter accepts only
strings; non-string history entries would be rejected there). -/
def strMembers : JVal → List String
  | .arr xs => xs.filterMap (fun v => match v with
      | .str s => some s
      | _ => none)
  | _ => []

/-- `new File(obj)` (vinyl 1.x): defaults for cwd/base/stat/contents and a
history built by replaying `obj.history` plus a truthy `obj.path` through
the path setter.  The contents slot is passed already rewritten. -/
def newFile (fields : List (String × JVal)) (contents : Contents) : VFile :=
  let cwd := match lookupField fields "cwd" with
    | some (.str s) => if s = "" then processCwd else s
    | _ => processCwd
  let base := match lookupField fields "base" with
    | some (.str s) => if s = "" then cwd else s
    | _ => cwd
  let stat := match lookupField fields "stat" with
    | some v => if v.truthy then v else JVal.null
    | none => JVal.null
  let contents' := match contents with
    | .null => Contents.null
    | c => c
  let hist0 := match lookupField fields "history" with
    | some v => strMembers v
    | none => []
  let pushP := match lookupField fields "path" with
    | some (.str p) => if p = "" then [] else [p]
    | _ => []
  { cwd := cwd, base := base, stat := stat, contents := contents',
    history := replayHistory [] (hist0 ++ pushP), extras := [] }

/-- Own structural keys of a freshly constructed vinyl file, used by the
`objectOmit(obj, Object.keys(restoredFile))` step (the `path` accessor is
not an own key, so it is not omitted). -/
def vinylOwnKeys : List String :=
  ["cwd", "base", "stat", "contents", "history"]

/-- `objectAssign(restoredFile, extraTaskProperties)`: a `path` key goes
through the path setter, every other key becomes an own property. -/
def applyExtraProps (f : VFile) (fields : List (String × JVal)) : VFile :=
  fields.foldl (fun acc kv =>
    if kv.fst = "path" then
      match kv.snd with
      | .str p => acc.setPath p
      | _ => acc
    else { acc with extras := setField acc.extras kv.fst kv.snd }) f

/-- `restoreFileFromObj` from the plugin entry file: rebuild the Buffer,
construct a fresh vinyl file, then overlay the non-structural properties
of the stored object. -/
def restoreFileFromObj (v : JVal) : VFile :=
  let fields := toFields v
  let c := match lookupField fields "contents" with
    | some cv => decodeContents cv
    | none => Contents.null
  let f := newFile fields c
  let extraProps := fields.filter (fun kv => kv.fst ∉ vinylOwnKeys)
  applyExtraProps f extraProps

/-- Dynamic property read `file[key]` for the keys reachable through the
string-valued `value` option (prototype methods are not modelled). -/
def fileGet (f : VFile) (k : String) : Option JVal :=
  if k = "cwd" then some (JVal.str f.cwd)
  else if k = "base" then some (JVal.str f.base)
  else if k = "path" then f.path.map JVal.str
  else if k = "contents" then some (contentsToJVal f.contents)
  else if k = "stat" then some f.stat
  else if k = "history" then some (JVal.arr (f.history.map JVal.str))
  else lookupField f.extras k

/-- `file.isNull()`. -/
def isNullFile (f : VFile) : Bool :=
  match f.contents with
  | .null => true
  | _ => false

/-- `file.isStream()`. -/
def isStreamFile (f : VFile) : Bool :=
  match f.contents with
  | .stream => true
  | _ => false

/-- Contents bytes used by the default key function
(`file.contents.toString('base64')`); in every reachable use the contents
are an in-memory Buffer, because null files never enter an invocation. -/
def contentBytes (f : VFile) : List Nat :=
  match f.contents with
  | .buf bs => bs
  | _ => []

/-! ### Configuration, cache store and execution bridge -/

/-- The `success` option: `true`, `false`, a synchronous predicate, or an
asynchronous predicate.  `_runProxiedTaskAndCache` tests
`opts.success !== true && !opts.success(...)`: calling `false` throws, and
an asynchronous predicate returns a promise, which is truthy no matter
what it later resolves to. -/
inductive SuccessOpt where
  | always
  | boolFalse
  | pred (p : List VFile → Bool)
  | asyncPred (p : List VFile → Bool)

/-- A value reaching `_storeCachedResult`: `undefined` (no value rule
configured), a raw string, a picked file object, a batch of picked file
objects, or any other plain value. -/
inductive SVal where
  | undef
  | strv (s : String)
  | objv (o : FileObj)
  | batch (os : List FileObj)
  | jv (v : JVal)

/-- The `value` option: absent (neither string nor function), a property
name, the default extraction function, or a custom function. -/
inductive ValueOpt where
  | unset
  | prop (name : String)
  | defaultVal
  | custom (g : List VFile → SVal)

/-- Resolved per-invocation configuration.  The restore step is the
default one from `defaultOptions` (element-wise in many-to-many mode);
the key function receives the file batch selected by the cardinality
mode. -/
structure Opts where
  name : String
  manyToMany : Bool
  keyFn : List VFile → Option String
  success : SuccessOpt
  value : ValueOpt

/-- A stored raw value: the JSON tree of a serialized value, or the raw
text of a value that was already a string. -/
inductive JStored where
  | json (v : JVal)
  | rawStr (s : String)

/-- The persistent store's visible state: (namespace, key, raw) entries,
first match wins. -/
def Store := List (String × String × JStored)

/-- `getCached(name, key)`. -/
def storeLookup : Store → String → String → Option JStored
  | [], _, _ => none
  | (n, k, raw) :: rest, name, key =>
    if n = name ∧ k = key then some raw else storeLookup rest name key

/-- Trace of cache store operations performed by an invocation. -/
inductive StoreOp where
  | get (name key : String)
  | add (name key : String) (raw : JStored)
  | remove (name : String) (key : Option String)

/-- Applying an operation trace to the store (`addCached` overwrites,
`removeCached` deletes; a `removeCached` with an undefined key matches
nothing). -/
def applyOps (store : Store) (ops : List StoreOp) : Store :=
  ops.foldl (fun st op =>
    match op with
    | .add n k raw => (n, k, raw) :: st
    | .remove n (some k) => st.filter (fun e => ¬ (e.1 = n ∧ e.2.1 = k))
    | _ => st) store

/-- Events the wrapped task emits once driven. -/
inductive TaskEvent where
  | data (f : VFile)
  | errorEv (e : String)
  | endEv (f : Option VFile)

/-- How a drive of the wrapped task settled. -/
inductive BridgeDone where
  | finished (fs : List VFile)
  | failed (e : String)

/-- Listener bookkeeping of `_runProxiedTask`: whether the three handlers
are still installed, the task's max-listener count, the collected
outputs, and the settlement. -/
structure BridgeState where
  installed : Bool
  maxListeners : Nat
  outputs : List VFile
  settled : Option BridgeDone

/-- Handler teardown: remove the listeners and lower the max-listener
count by the three that were added. -/
def bridgeTeardown (st : BridgeState) (d : BridgeDone) : BridgeState :=
  { st with installed := false, maxListeners := st.maxListeners - 3,
            settled := some d }

/-- One emitted event against the bridge: data collects (and completes in
one-to-one mode), an error rejects, end resolves; once the listeners are
removed further events are ignored. -/
def bridgeStep (manyToMany : Bool) (st : BridgeState) (ev : TaskEvent) :
    BridgeState :=
  if st.installed then
    match ev with
    | .data f =>
      let st1 := { st with outputs := st.outputs ++ [f] }
      if manyToMany then st1
      else bridgeTeardown st1 (.finished st1.outputs)
    | .errorEv e => bridgeTeardown st (.failed e)
    | .endEv f? =>
      let st1 := { st with outputs := st.outputs ++ f?.toList }
      bridgeTeardown st1 (.finished st1.outputs)
  else st

/-- `_runProxiedTask`: bump the max-listener count by three, install the
handlers, then absorb the task's emissions. -/
def bridgeRun (manyToMany : Bool) (m0 : Nat) (evs : List TaskEvent) :
    BridgeState :=
  evs.foldl (bridgeStep manyToMany)
    { installed := true, maxListeners := m0 + 3, outputs := [],
      settled := none }

/-! ### The orchestrator: TaskProxy -/

/-- Result of one invocation: terminal outcome, the store operations
performed, the bridge state when the wrapped task was driven, and the
files written into the task. -/
inductive Outcome where
  | resolved (files : List VFile)
  | rejected (e : String)
  | pending

/-- Full observable result of `processFiles`. -/
structure InvRes where
  outcome : Outcome
  ops : List StoreOp
  bridge : Option BridgeState
  written : List VFile

/-- Error text for a property read on `undefined`. -/
def undefReadErr : String := "TypeError: cannot read property of undefined"

/-- Error text for calling a non-function success option. -/
def notFnErr : String := "TypeError: success is not a function"

/-- Error text for a strict-mode property assignment on a primitive. -/
def primAssignErr : String := "TypeError: cannot create property on value"

/-- Error text for mapping over a non-array cached value. -/
def mapNotFnErr : String := "TypeError: value.map is not a function"

/-- `_getFileKey`: call the key option on the file or the batch (per the
cardinality mode); a falsy key short-circuits, otherwise the key text is
hashed.  A falsy key is collapsed to `none`, since only its truthiness is
ever observed downstream. -/
def getFileKey (opts : Opts) (files : List VFile) : Option String :=
  match opts.keyFn (if opts.manyToMany then files else files.take 1) with
  | none => none
  | some k => if k = "" then none else some (makeHash k)

/-- `tryJsonParse(cached.contents)` followed by the wrap of unparsable
text (`{cached: contents}`).  A raw-string entry models stored text that
is not valid JSON. -/
def tryJsonParseStored : JStored → JVal
  | .json v => v
  | .rawStr s => JVal.obj [("cached", JVal.str s)]

/-- A found cached value after the default restore: a single restored
file in one-to-one mode, a restored batch in many-to-many mode. -/
inductive HitValue where
  | one (v : VFile)
  | many (fs : List VFile)

/-- Result of `_checkForCachedValue`: the (hashed) key when there is one,
the restored value when the store had an entry, or a restore-time error
(mapping a non-array batch entry). -/
inductive CheckRes where
  | found (key : Option String) (value : Option HitValue)
  | restoreErr (e : String)

/-- `_checkForCachedValue` with its store-operation trace. -/
def checkForCachedValue (opts : Opts) (files : List VFile) (store : Store) :
    CheckRes × List StoreOp :=
  match getFileKey opts files with
  | none => (.found none none, [])
  | some k =>
    match storeLookup store opts.name k with
    | none => (.found (some k) none, [.get opts.name k])
    | some raw =>
      let parsed := tryJsonParseStored raw
      if opts.manyToMany then
        match parsed with
        | .arr xs =>
          (.found (some k) (some (.many (xs.map restoreFileFromObj))),
           [.get opts.name k])
        | _ => (.restoreErr mapNotFnErr, [.get opts.name k])
      else
        (.found (some k) (some (.one (restoreFileFromObj parsed))),
         [.get opts.name k])

/-- `processFiles` hit reconciliation (one-to-one): extend the cached
value onto the input file without the structural fields, then restore the
stored path when it was legitimately changed inside the task. -/
def mergeHit (input v : VFile) : VFile :=
  let merged := { input with contents := v.contents,
                             extras := assignFields input.extras v.extras }
  match v.path with
  | some p =>
    if p ≠ "" ∧
       truthyOpt (lookupField v.extras "filePathChangedInsideTask") then
      merged.setPath p
    else merged
  | none => merged

/-- The fall-through test of `processFiles`: the cached value is accepted
unless its path changed inside the task and its original path differs
from the current input's path. -/
def hitAccepted (input v : VFile) : Bool :=
  ¬ truthyOpt (lookupField v.extras "filePathChangedInsideTask") ∨
    jsEqStrOpt (lookupField v.extras "originalPath") input.path

/-- The `success` gate of `_runProxiedTaskAndCache`; `Except.error` is a
thrown `TypeError` from calling a non-function. -/
def successEval (opts : Opts) (outs : List VFile) : Except String Bool :=
  match opts.success with
  | .always => .ok true
  | .boolFalse => .error notFnErr
  | .pred p => .ok (p (if opts.manyToMany then outs else outs.take 1))
  | .asyncPred _ => .ok true

/-- `value: 'name'` projection of one output file: an object with just
that property (dropped at serialization when the property is undefined). -/
def pickProp (f : VFile) (k : String) : JVal :=
  JVal.obj (match fileGet f k with
    | some v => [(k, v)]
    | none => [])

/-- `_getValueFromResult`: no rule gives `undefined`, a property name
projects it, a function is called with the output or batch. -/
def getValueFromResult (opts : Opts) (outs : List VFile) :
    Except String SVal :=
  match opts.value with
  | .unset => .ok .undef
  | .prop k =>
    if opts.manyToMany then .ok (.jv (.arr (outs.map (fun f => pickProp f k))))
    else
      match outs with
      | f :: _ => .ok (.jv (pickProp f k))
      | [] => .error undefReadErr
  | .defaultVal =>
    if opts.manyToMany then .ok (.batch (outs.map fileToObj))
    else
      match outs with
      | f :: _ => .ok (.objv (fileToObj f))
      | [] => .error undefReadErr
  | .custom g => .ok (g (if opts.manyToMany then outs else outs.take 1))

/-- The serialized form of a single picked file object: the picked fields
followed by the freshly stamped bookkeeping fields. -/
def encodeObjVal (o : FileObj) (origPath0 : Option String) : JVal :=
  JVal.obj (fileObjFields o
    ++ (if o.path ≠ origPath0 then
          [("filePathChangedInsideTask", JVal.bool true)]
        else [])
    ++ (match origPath0 with
        | some p => [("originalPath", JVal.str p)]
        | none => []))

/-- The non-string branch of `_storeCachedResult`: stamp
`filePathChangedInsideTask` when the value's path differs from the first
original path, stamp `originalPath`, then serialize.  Stamps assigned to
an array value are dropped by `JSON.stringify`; stamping `undefined`,
`null` or a primitive throws. -/
def encodeStoredValue (v : SVal) (origPath0 : Option String) :
    Except String JStored :=
  match v with
  | .strv s => .ok (.rawStr s)
  | .undef => .error undefReadErr
  | .objv o => .ok (.json (encodeObjVal o origPath0))
  | .batch os => .ok (.json (.arr (os.map (fun o => JVal.obj (fileObjFields o)))))
  | .jv w =>
    match w with
    | .obj fs =>
      let fs1 := if ¬ jsEqStrOpt (lookupField fs "path") origPath0 then
          setField fs "filePathChangedInsideTask" (JVal.bool true)
        else fs
      let fs2 := match origPath0 with
        | some p => setField fs1 "originalPath" (JVal.str p)
        | none => dropField fs1 "originalPath"
      .ok (.json (.obj fs2))
    | .arr xs => .ok (.json (.arr xs))
    | _ => .error primAssignErr

/-- `_storeCachedResult`: skip entirely without a key, otherwise extract,
encode and add the entry. -/
def storeCachedResult (opts : Opts) (origPath0 : Option String)
    (key : Option String) (outs : List VFile) :
    Except String (List StoreOp) :=
  match key with
  | none => .ok []
  | some k =>
    match getValueFromResult opts outs with
    | .error e => .error e
    | .ok v =>
      match encodeStoredValue v origPath0 with
      | .error e => .error e
      | .ok raw => .ok [.add opts.name k raw]

/-- The path of the first input at proxy-construction time
(`originalPaths[0]`). -/
def origPath0 (files : List VFile) : Option String :=
  match files with
  | [] => none
  | f :: _ => f.path

/-- `_runProxiedTaskAndCache`: drive the task, gate on the success
option, store the extracted value, return the real outputs. -/
def runProxiedTaskAndCache (opts : Opts) (files : List VFile)
    (key : Option String) (taskBeh : List VFile → List TaskEvent)
    (m0 : Nat) : InvRes :=
  let written := if opts.manyToMany then files else files.take 1
  let st := bridgeRun opts.manyToMany m0 (taskBeh written)
  match st.settled with
  | none => ⟨.pending, [], some st, written⟩
  | some (.failed e) => ⟨.rejected e, [], some st, written⟩
  | some (.finished outs) =>
    match successEval opts outs with
    | .error e => ⟨.rejected e, [], some st, written⟩
    | .ok false => ⟨.resolved outs, [], some st, written⟩
    | .ok true =>
      match storeCachedResult opts (origPath0 files) key outs with
      | .error e => ⟨.rejected e, [], some st, written⟩
      | .ok addOps => ⟨.resolved outs, addOps, some st, written⟩

/-- `processFiles`: check the cache; on a many-to-many hit return the
batch verbatim; on an applicable one-to-one hit merge onto the input;
otherwise run the proxied task and cache. -/
def processFiles (opts : Opts) (files : List VFile) (store : Store)
    (taskBeh : List VFile → List TaskEvent) (m0 : Nat) : InvRes :=
  match checkForCachedValue opts files store with
  | (.restoreErr e, ops) => ⟨.rejected e, ops, none, []⟩
  | (.found key hv, ops) =>
    match hv with
    | some (.many fs) => ⟨.resolved fs, ops, none, []⟩
    | some (.one v) =>
      match files with
      | [] => ⟨.rejected undefReadErr, ops, none, []⟩
      | fI :: _ =>
        if hitAccepted fI v then
          ⟨.resolved [mergeHit fI v], ops, none, []⟩
        else
          let r := runProxiedTaskAndCache opts files key taskBeh m0
          { r with ops := ops ++ r.ops }
    | none =>
      let r := runProxiedTaskAndCache opts files key taskBeh m0
      { r with ops := ops ++ r.ops }

/-- `removeCachedResult`: compute the key and remove the entry (the key
may be undefined; `removeCached` is called regardless). -/
def removeCachedResult (opts : Opts) (files : List VFile) :
    Outcome × List StoreOp :=
  (.resolved [], [.remove opts.name (getFileKey opts files)])

/-- The default key function from `defaultOptions`: the version tag
concatenated with the base64 text of every selected file's contents. -/
def defaultKeyFn (version : String) (files : List VFile) : Option String :=
  some (version ++ String.join (files.map (fun f => base64Encode (contentBytes f))))

/-- `defaultOptions` resolved with a cardinality mode: default namespace,
default key, `success: true`, default value extraction. -/
def defaultOpts (version : String) (manyToMany : Bool) : Opts :=
  { name := "default", manyToMany := manyToMany,
    keyFn := defaultKeyFn version, success := .always,
    value := .defaultVal }

/-! ### The public stream interface

`cacheTask` (one transform per input file plus a flush) and
`cacheTask.clear`.  A `cb(err)` from a rejected invocation errors the
stream and halts further processing; the plugin-error wrapper adds no
information and is not modelled. -/

/-- Observable result of a whole stream run: emitted files in order, an
error if one was signalled, the batches handed to a task proxy, the files
written into the wrapped task, the store operations, and whether a
never-settling invocation stalled the stream. -/
structure StreamRes where
  outputs : List VFile
  errored : Option String
  processed : List (List VFile)
  written : List VFile
  ops : List StoreOp
  stalled : Bool

/-- Error text for streamed-content inputs. -/
def streamErrMsg : String := "Cannot operate on stream sources"

/-- The flush step of `cacheTask`: in many-to-many mode process all the
collected files together; in one-to-one mode do nothing. -/
def streamFlush (opts : Opts) (taskBeh : List VFile → List TaskEvent)
    (m0 : Nat) (store : Store) (collected : List VFile) : StreamRes :=
  if opts.manyToMany then
    let r := processFiles opts collected store taskBeh m0
    match r.outcome with
    | .resolved fs => ⟨fs, none, [collected], r.written, r.ops, false⟩
    | .rejected e => ⟨[], some e, [collected], r.written, r.ops, false⟩
    | .pending => ⟨[], none, [collected], r.written, r.ops, true⟩
  else ⟨[], none, [], [], [], false⟩

/-- The per-file transform of `cacheTask` over the remaining input, with
the store threaded through and the many-to-many batch accumulated: null
files are forwarded untouched, streamed files error the stream, the rest
are processed (one-to-one) or collected (many-to-many). -/
def streamGo (opts : Opts) (taskBeh : List VFile → List TaskEvent)
    (m0 : Nat) : Store → List VFile → List VFile → StreamRes
  | store, collected, [] => streamFlush opts taskBeh m0 store collected
  | store, collected, f :: rest =>
    if isNullFile f then
      let r := streamGo opts taskBeh m0 store collected rest
      { r with outputs := f :: r.outputs }
    else if isStreamFile f then
      ⟨[], some streamErrMsg, [], [], [], false⟩
    else if opts.manyToMany then
      streamGo opts taskBeh m0 store (collected ++ [f]) rest
    else
      let r := processFiles opts [f] store taskBeh m0
      match r.outcome with
      | .resolved fs =>
        let rest' := streamGo opts taskBeh m0 (applyOps store r.ops)
          collected rest
        ⟨fs ++ rest'.outputs, rest'.errored, [f] :: rest'.processed,
         r.written ++ rest'.written, r.ops ++ rest'.ops, rest'.stalled⟩
      | .rejected e => ⟨[], some e, [[f]], r.written, r.ops, false⟩
      | .pending => ⟨[], none, [[f]], r.written, r.ops, true⟩

/-- A full run of the caching entry point over a finite input stream. -/
def cacheTaskRun (opts : Opts) (store : Store)
    (taskBeh : List VFile → List TaskEvent) (m0 : Nat)
    (inputs : List VFile) : StreamRes :=
  streamGo opts taskBeh m0 store [] inputs

/-- The flush step of `cacheTask.clear`: in many-to-many mode remove the
entry for the collected batch and forward the first collected file. -/
def clearFlush (opts : Opts) (collected : List VFile) : StreamRes :=
  if opts.manyToMany then
    let r := removeCachedResult opts collected
    ⟨collected.take 1, none, [collected], [], r.2, false⟩
  else ⟨[], none, [], [], [], false⟩

/-- The per-file transform of `cacheTask.clear`: same null/stream
filtering as the caching transform; each processed batch has its cache
entry removed and its first file forwarded. -/
def clearGo (opts : Opts) : List VFile → List VFile → StreamRes
  | collected, [] => clearFlush opts collected
  | collected, f :: rest =>
    if isNullFile f then
      let r := clearGo opts collected rest
      { r with outputs := f :: r.outputs }
    else if isStreamFile f then
      ⟨[], some streamErrMsg, [], [], [], false⟩
    else if opts.manyToMany then
      clearGo opts (collected ++ [f]) rest
    else
      let rem := removeCachedResult opts [f]
      let r := clearGo opts collected rest
      ⟨f :: r.outputs, r.errored, [f] :: r.processed, [],
       rem.2 ++ r.ops, r.stalled⟩

/-- A full run of the invalidation entry point over a finite input
stream. -/
def cacheClearRun (opts : Opts) (inputs : List VFile) : StreamRes :=
  clearGo opts [] inputs

/-! ### Helper predicates and shared fixtures -/

/-- Whether an operation trace contains an `addCached` call. -/
def hasAddOp : List StoreOp → Bool
  | [] => false
  | .add _ _ _ :: _ => true
  | _ :: rest => hasAddOp rest

/-- The raw values of the `addCached` calls in a trace. -/
def addPayloads : List StoreOp → List JStored
  | [] => []
  | .add _ _ raw :: rest => raw :: addPayloads rest
  | _ :: rest => addPayloads rest

/-- A stat value survives the vinyl constructor verbatim when it is null
or truthy (vinyl replaces a falsy stat by null). -/
def statOk : JVal → Bool
  | .null => true
  | v => v.truthy

/-- Byte-valued buffer contents, or null. -/
def bytesOk : Contents → Bool
  | .null => true
  | .buf bs => bs.all (fun b => b < 256)
  | _ => false

/-- A history list the vinyl setter replay reproduces: truthy entries with
no consecutive duplicates, starting from the given previous path. -/
def histOk : Option String → List String → Bool
  | _, [] => true
  | prev, p :: ps => (decide (p ≠ "") && decide (some p ≠ prev)) && histOk (some p) ps

/-- Well-formedness of a vinyl file as tasks produce them: truthy cwd and
base, a null-or-truthy stat, byte-valued or null contents, and a
setter-built history. -/
def wfFile (f : VFile) : Bool :=
  decide (f.cwd ≠ "") && decide (f.base ≠ "") && statOk f.stat &&
    bytesOk f.contents && histOk none f.history

/-- A buffer input fixture ("abc" at path a.txt). -/
def sampleIn : VFile :=
  { cwd := "/", base := "/", stat := JVal.null,
    contents := Contents.buf [97, 98, 99], history := ["a.txt"],
    extras := [] }

/-- A task output fixture ("ABC" at the same path, plus a task-added
property). -/
def sampleOut : VFile :=
  { cwd := "/", base := "/", stat := JVal.null,
    contents := Contents.buf [65, 66, 67], history := ["a.txt"],
    extras := [("custom", JVal.num 7)] }

/-- A null-content fixture. -/
def sampleNull : VFile :=
  { cwd := "/", base := "/", stat := JVal.null, contents := Contents.null,
    history := ["n.txt"], extras := [] }

/-! ### Support lemmas -/

/-- Without a key, `_storeCachedResult` performs no store operation, so
the whole task path records only bridge activity. -/
theorem runProxied_noKey (opts : Opts) (files : List VFile)
    (taskBeh : List VFile → List TaskEvent) (m0 : Nat) :
    (runProxiedTaskAndCache opts files none taskBeh m0).ops = [] ∧
    (runProxiedTaskAndCache opts files none taskBeh m0).bridge =
      some (bridgeRun opts.manyToMany m0
        (taskBeh (if opts.manyToMany then files else files.take 1))) := by
  unfold runProxiedTaskAndCache
  cases hst : (bridgeRun opts.manyToMany m0
      (taskBeh (if opts.manyToMany then files else files.take 1))).settled with
  | none => simp [hst]
  | some d =>
    cases d with
    | failed e => simp [hst]
    | finished outs =>
      cases hs : successEval opts outs with
      | error e => simp [hst, hs]
      | ok b =>
        cases b with
        | false => simp [hst, hs]
        | true => simp [hst, hs, storeCachedResult]

/-- `_checkForCachedValue` only ever reads the store. -/
theorem check_ops_no_add (opts : Opts) (files : List VFile) (store : Store) :
    hasAddOp (checkForCachedValue opts files store).2 = false := by
  unfold checkForCachedValue
  cases hk : getFileKey opts files with
  | none => simp [hasAddOp]
  | some k =>
    cases hl : storeLookup store opts.name k with
    | none => simp [hl, hasAddOp]
    | some raw =>
      cases hm : opts.manyToMany <;>
        cases hp : tryJsonParseStored raw <;> simp [hl, hp, hasAddOp]

/-- `hasAddOp` distributes over trace concatenation. -/
theorem hasAddOp_append (xs ys : List StoreOp) :
    hasAddOp (xs ++ ys) = (hasAddOp xs || hasAddOp ys) := by
  induction xs with
  | nil => simp [hasAddOp]
  | cons x rest ih => cases x <;> simp [hasAddOp, ih]

/-- Bridge invariant: either the handlers are still installed, nothing
has settled and the max-listener count is raised by three, or the
handlers are removed, the count is back to its initial value and a
settlement is recorded. -/
def bridgeInv (m0 : Nat) (st : BridgeState) : Prop :=
  (st.installed = true ∧ st.settled = none ∧ st.maxListeners = m0 + 3) ∨
  (st.installed = false ∧ st.maxListeners = m0 ∧ st.settled.isSome = true)

/-- One bridge step preserves the invariant. -/
theorem bridgeStep_inv (manyToMany : Bool) (m0 : Nat) (st : BridgeState)
    (ev : TaskEvent) (h : bridgeInv m0 st) :
    bridgeInv m0 (bridgeStep manyToMany st ev) := by
  rcases h with ⟨h1, h2, h3⟩ | ⟨h1, h2, h3⟩
  · cases ev with
    | data f =>
      cases manyToMany with
      | false =>
        right
        simp [bridgeStep, bridgeTeardown, h1, h3]
      | true =>
        left
        simp [bridgeStep, h1, h2, h3]
    | errorEv e =>
      right
      simp [bridgeStep, bridgeTeardown, h1, h3]
    | endEv f? =>
      right
      simp [bridgeStep, bridgeTeardown, h1, h3]
  · have : bridgeStep manyToMany st ev = st := by
      simp [bridgeStep, h1]
    rw [this]
    exact Or.inr ⟨h1, h2, h3⟩

/-- Folding events over an invariant-satisfying state keeps the
invariant. -/
theorem bridgeFold_inv (manyToMany : Bool) (m0 : Nat)
    (evs : List TaskEvent) : ∀ st0 : BridgeState, bridgeInv m0 st0 →
    bridgeInv m0 (evs.foldl (bridgeStep manyToMany) st0) := by
  induction evs with
  | nil => intro st0 h; exact h
  | cons ev rest ih =>
    intro st0 h
    exact ih (bridgeStep manyToMany st0 ev) (bridgeStep_inv _ _ _ _ h)

/-- The invariant holds after any run of the bridge. -/
theorem bridgeRun_inv (manyToMany : Bool) (m0 : Nat)
    (evs : List TaskEvent) : bridgeInv m0 (bridgeRun manyToMany m0 evs) :=
  bridgeFold_inv manyToMany m0 evs _ (Or.inl ⟨rfl, rfl, rfl⟩)

/-- A settled bridge has removed its listeners and restored the
max-listener count. -/
theorem bridgeRun_settled_clean (manyToMany : Bool) (m0 : Nat)
    (evs : List TaskEvent) (d : BridgeDone)
    (h : (bridgeRun manyToMany m0 evs).settled = some d) :
    (bridgeRun manyToMany m0 evs).installed = false ∧
    (bridgeRun manyToMany m0 evs).maxListeners = m0 := by
  rcases bridgeRun_inv manyToMany m0 evs with ⟨_, h2, _⟩ | ⟨h1, h2, _⟩
  · rw [h2] at h
    exact absurd h (by simp)
  · exact ⟨h1, h2⟩

/-- A string with a nonempty left part is nonempty. -/
theorem append_ne_empty_left (a b : String) (h : a ≠ "") : a ++ b ≠ "" := by
  intro hab
  apply h
  have hd := congrArg String.data hab
  rw [String.data_append] at hd
  rcases List.append_eq_nil.mp hd with ⟨ha, _⟩
  cases a with
  | mk d =>
    cases ha
    rfl

/-- The rendered MD5 digest always has 32 hex characters (a 128-bit
digest, two characters per byte). -/
theorem md5hex_length (msg : List Nat) : (md5hex msg).length = 32 := by
  unfold md5hex
  rw [String.length_mk]
  simp [wordLEHex, byteHex]

/-! ### C6 -/

/-- C6: an invocation whose key function yields a falsy key is an
unconditional cache miss: no store operation at all is recorded (so
`getCached` and `addCached` are never called) and the wrapped task is
driven. -/
theorem falsyKey_bypasses_cache (opts : Opts) (files : List VFile)
    (store : Store) (taskBeh : List VFile → List TaskEvent) (m0 : Nat)
    (hk : opts.keyFn (if opts.manyToMany then files else files.take 1) = none ∨
          opts.keyFn (if opts.manyToMany then files else files.take 1) = some "") :
    (processFiles opts files store taskBeh m0).ops = [] ∧
    (processFiles opts files store taskBeh m0).bridge =
      some (bridgeRun opts.manyToMany m0
        (taskBeh (if opts.manyToMany then files else files.take 1))) := by
  have hkey : getFileKey opts files = none := by
    rcases hk with h | h <;> simp [getFileKey, h]
  have hcheck : checkForCachedValue opts files store =
      (.found none none, []) := by
    simp [checkForCachedValue, hkey]
  have hrp := runProxied_noKey opts files taskBeh m0
  unfold processFiles
  rw [hcheck]
  exact ⟨hrp.1, hrp.2⟩

/-- Fixture: options whose key function deliberately yields no key. -/
def noKeyOpts : Opts :=
  { name := "n", manyToMany := false, keyFn := fun _ => none,
    success := .always, value := .defaultVal }

/-- Fixture: a task that answers any write with one output file. -/
def oneOutBeh : List VFile → List TaskEvent :=
  fun _ => [TaskEvent.data sampleOut]

/-- Witness for C6 at a concrete invocation. -/
theorem falsyKey_bypasses_cache_witness :
    (processFiles noKeyOpts [sampleIn] [] oneOutBeh 0).ops = [] ∧
    (processFiles noKeyOpts [sampleIn] [] oneOutBeh 0).bridge =
      some (bridgeRun false 0 (oneOutBeh [sampleIn])) := by
  have h := falsyKey_bypasses_cache noKeyOpts [sampleIn] [] oneOutBeh 0
    (Or.inl rfl)
  exact ⟨h.1, h.2⟩

/-! ### C7 -/

/-- C7: with the default configuration the key is the 128-bit MD5 digest,
rendered as 32 hex characters, of the version tag concatenated with the
base64 text of each selected input's contents in order (the whole batch
in many-to-many mode, the first file in one-to-one mode), and it depends
only on the version tag and the contents, so identical pairs yield the
identical fingerprint. -/
theorem defaultKey_formula (version : String) (files : List VFile)
    (hv : version ≠ "")
    (hc : ∀ f ∈ files, ∃ bs, f.contents = Contents.buf bs) :
    getFileKey (defaultOpts version true) files =
      some (makeHash (version ++
        String.join (files.map (fun f => base64Encode (contentBytes f))))) ∧
    getFileKey (defaultOpts version false) files =
      some (makeHash (version ++
        String.join ((files.take 1).map
          (fun f => base64Encode (contentBytes f))))) ∧
    (makeHash (version ++
        String.join (files.map (fun f => base64Encode (contentBytes f))))).length
      = 32 ∧
    (∀ files' : List VFile,
      files.map contentBytes = files'.map contentBytes →
      getFileKey (defaultOpts version true) files =
        getFileKey (defaultOpts version true) files') := by
  refine ⟨?_, ?_, md5hex_length _, ?_⟩
  · have hne := append_ne_empty_left version
      (String.join (files.map (fun f => base64Encode (contentBytes f)))) hv
    simp [getFileKey, defaultOpts, defaultKeyFn, hne]
  · have hne := append_ne_empty_left version
      (String.join (List.take 1 (files.map (fun f => base64Encode (contentBytes f))))) hv
    simp [getFileKey, defaultOpts, defaultKeyFn, hne]
  · intro files' hsame
    have hmap : files.map (fun f => base64Encode (contentBytes f)) =
        files'.map (fun f => base64Encode (contentBytes f)) := by
      have h1 : files.map (fun f => base64Encode (contentBytes f)) =
          (files.map contentBytes).map base64Encode := by
        rw [List.map_map]; rfl
      have h2 : files'.map (fun f => base64Encode (contentBytes f)) =
          (files'.map contentBytes).map base64Encode := by
        rw [List.map_map]; rfl
      rw [h1, h2, hsame]
    simp [getFileKey, defaultOpts, defaultKeyFn, hmap]

/-- Witness for C7 at a concrete version tag and input. -/
theorem defaultKey_formula_witness :
    ("v1" : String) ≠ "" ∧
    getFileKey (defaultOpts "v1" true) [sampleIn] =
      some (makeHash ("v1" ++
        String.join ([sampleIn].map (fun f => base64Encode (contentBytes f))))) := by
  have h := defaultKey_formula "v1" [sampleIn] (by decide)
    (by
      intro f hf
      rw [List.mem_singleton] at hf
      exact ⟨[97, 98, 99], by subst hf; rfl⟩)
  exact ⟨by decide, h.1⟩

/-! ### C9 -/

/-- C9: when the first settling signal from the wrapped task is an error,
the invocation rejects with that error, the bridge has removed its
listeners and restored the max-listener count, and the outputs collected
before the error appear neither in the outcome nor as a store write (the
trace keeps only the lookup operations). -/
theorem taskError_rejects_and_discards (opts : Opts) (files : List VFile)
    (store : Store) (taskBeh : List VFile → List TaskEvent) (m0 : Nat)
    (e : String) (key : Option String) (ops0 : List StoreOp)
    (hmiss : checkForCachedValue opts files store = (.found key none, ops0))
    (herr : (bridgeRun opts.manyToMany m0
        (taskBeh (if opts.manyToMany then files else files.take 1))).settled =
      some (.failed e)) :
    processFiles opts files store taskBeh m0 =
      ⟨.rejected e, ops0,
        some (bridgeRun opts.manyToMany m0
          (taskBeh (if opts.manyToMany then files else files.take 1))),
        if opts.manyToMany then files else files.take 1⟩ ∧
    (bridgeRun opts.manyToMany m0
        (taskBeh (if opts.manyToMany then files else files.take 1))).installed
      = false ∧
    (bridgeRun opts.manyToMany m0
        (taskBeh (if opts.manyToMany then files else files.take 1))).maxListeners
      = m0 ∧
    hasAddOp ops0 = false := by
  have hclean := bridgeRun_settled_clean opts.manyToMany m0
    (taskBeh (if opts.manyToMany then files else files.take 1)) _ herr
  have hops : hasAddOp ops0 = false := by
    have h := check_ops_no_add opts files store
    rw [hmiss] at h
    exact h
  refine ⟨?_, hclean.1, hclean.2, hops⟩
  unfold processFiles
  rw [hmiss]
  simp only [runProxiedTaskAndCache, herr]
  simp

/-- Fixture: a task that signals an error before any completion, then
emits a stray data event that must be ignored. -/
def errBeh : List VFile → List TaskEvent :=
  fun _ => [TaskEvent.errorEv "boom", TaskEvent.data sampleOut]

/-- The default key of the `sampleIn` fixture under version tag v1. -/
def sampleKey : String := makeHash ("v1" ++ base64Encode [97, 98, 99])

/-- Witness for C9 at a concrete erroring run. -/
theorem taskError_rejects_and_discards_witness :
    processFiles (defaultOpts "v1" false) [sampleIn] [] errBeh 5 =
      ⟨.rejected "boom", [StoreOp.get "default" sampleKey],
        some (bridgeRun false 5 (errBeh [sampleIn])), [sampleIn]⟩ ∧
    (bridgeRun false 5 (errBeh [sampleIn])).installed = false ∧
    (bridgeRun false 5 (errBeh [sampleIn])).maxListeners = 5 ∧
    hasAddOp [StoreOp.get "default" sampleKey] = false := by
  have h := taskError_rejects_and_discards (defaultOpts "v1" false)
    [sampleIn] [] errBeh 5 "boom" (some sampleKey)
    [StoreOp.get "default" sampleKey] rfl rfl
  exact h

/-! ### C3 -/

/-- Fixture: an asynchronous success predicate that resolves to false. -/
def asyncFalseOpts : Opts :=
  { name := "n", manyToMany := false, keyFn := fun _ => some "k",
    success := .asyncPred (fun _ => false), value := .defaultVal }

/-- C3 counterexample: with an asynchronous success predicate that
reports failure, the cache-miss invocation still adds an entry to the
store (the returned promise is truthy, so the gate never fires), contrary
to the claim that no entry is added. -/
theorem asyncSuccess_still_caches_counterexample :
    asyncFalseOpts.success = .asyncPred (fun _ => false) ∧
    (processFiles asyncFalseOpts [sampleIn] [] oneOutBeh 0).outcome =
      .resolved [sampleOut] ∧
    hasAddOp (processFiles asyncFalseOpts [sampleIn] [] oneOutBeh 0).ops =
      true :=
  ⟨rfl, rfl, rfl⟩

/-- C3 amended: for a synchronous success predicate that returns false on
the task's output, no entry is added to the store and the invocation
resolves with the task's real outputs unchanged. -/
theorem syncSuccess_gating (opts : Opts) (files : List VFile)
    (store : Store) (taskBeh : List VFile → List TaskEvent) (m0 : Nat)
    (p : List VFile → Bool) (outs : List VFile) (key : Option String)
    (ops0 : List StoreOp)
    (hs : opts.success = .pred p)
    (hmiss : checkForCachedValue opts files store = (.found key none, ops0))
    (hout : (bridgeRun opts.manyToMany m0
        (taskBeh (if opts.manyToMany then files else files.take 1))).settled =
      some (.finished outs))
    (hp : p (if opts.manyToMany then outs else outs.take 1) = false) :
    (processFiles opts files store taskBeh m0).outcome = .resolved outs ∧
    hasAddOp (processFiles opts files store taskBeh m0).ops = false := by
  have hops0 : hasAddOp ops0 = false := by
    have h := check_ops_no_add opts files store
    rw [hmiss] at h
    exact h
  unfold processFiles
  rw [hmiss]
  simp only [runProxiedTaskAndCache, hout]
  simp [successEval, hs, hp, hasAddOp_append, hops0, hasAddOp]

/-- Fixture: a synchronous success predicate that always reports
failure. -/
def predFalseOpts : Opts :=
  { name := "n", manyToMany := false, keyFn := fun _ => some "k",
    success := .pred (fun _ => false), value := .defaultVal }

/-- Witness for the amended C3 at a concrete rejected-by-predicate run. -/
theorem syncSuccess_gating_witness :
    (processFiles predFalseOpts [sampleIn] [] oneOutBeh 0).outcome =
      .resolved [sampleOut] ∧
    hasAddOp (processFiles predFalseOpts [sampleIn] [] oneOutBeh 0).ops =
      false := by
  have h := syncSuccess_gating predFalseOpts [sampleIn] [] oneOutBeh 0
    (fun _ => false) [sampleOut] (some (makeHash "k"))
    [StoreOp.get "n" (makeHash "k")] rfl rfl rfl rfl
  exact h

/-! ### C5 -/

/-- Fixture: options with no value-extraction rule configured. -/
def unsetValueOpts : Opts :=
  { name := "n", manyToMany := false, keyFn := fun _ => some "k",
    success := .always, value := .unset }

/-- C5: evaluation of the code at the failing input.  With no value rule
configured, `_getValueFromResult` resolves `undefined` and
`_storeCachedResult` then reads `.path` of it, so the cache-miss
invocation rejects with a `TypeError` instead of resolving with the real
output; no entry is added. -/
theorem unsetValue_rejects :
    unsetValueOpts.value = .unset ∧
    (processFiles unsetValueOpts [sampleIn] [] oneOutBeh 0).outcome =
      .rejected undefReadErr ∧
    hasAddOp (processFiles unsetValueOpts [sampleIn] [] oneOutBeh 0).ops =
      false :=
  ⟨rfl, rfl, rfl⟩

/-! ### C4 -/

/-- Fixture: a many-to-many task answering the batch with one output file
and an end signal. -/
def m2mBeh : List VFile → List TaskEvent :=
  fun _ => [TaskEvent.data sampleOut, TaskEvent.endEv none]

/-- The serialized fields of a picked file object never include the
bookkeeping stamps. -/
theorem fileObjFields_no_stamps (o : FileObj) :
    hasField (fileObjFields o) "originalPath" = false ∧
    hasField (fileObjFields o) "filePathChangedInsideTask" = false := by
  cases hp : o.path <;> simp [fileObjFields, hasField, lookupField, hp]

/-- C4 counterexample: a many-to-many result is cached, the corresponding
input has a path, yet the serialized stored batch element carries neither
`originalPath` nor `pathChangedInsideTask` (the stamps were assigned to
the transient array object and dropped by serialization). -/
theorem m2m_stamps_missing_counterexample :
    (processFiles (defaultOpts "v1" true) [sampleIn] [] m2mBeh 0).outcome =
      .resolved [sampleOut] ∧
    addPayloads (processFiles (defaultOpts "v1" true) [sampleIn] [] m2mBeh 0).ops =
      [JStored.json (JVal.arr [JVal.obj (fileObjFields (fileToObj sampleOut))])] ∧
    hasField (fileObjFields (fileToObj sampleOut)) "originalPath" = false ∧
    hasField (fileObjFields (fileToObj sampleOut)) "filePathChangedInsideTask" =
      false ∧
    sampleIn.path = some "a.txt" :=
  ⟨rfl, rfl, rfl, rfl, rfl⟩

/-- C4 amended: a cached many-to-many result is stored as the plain array
of the per-element extracted properties; the `originalPath` and
`pathChangedInsideTask` stamps are applied only to the transient batch
array object and do not appear in the serialized stored form. -/
theorem m2m_store_shape (opts : Opts) (files : List VFile) (store : Store)
    (taskBeh : List VFile → List TaskEvent) (m0 : Nat) (outs : List VFile)
    (key : String) (ops0 : List StoreOp)
    (hm : opts.manyToMany = true)
    (hval : opts.value = .defaultVal)
    (hsuc : opts.success = .always)
    (hmiss : checkForCachedValue opts files store =
      (.found (some key) none, ops0))
    (hout : (bridgeRun opts.manyToMany m0
        (taskBeh (if opts.manyToMany then files else files.take 1))).settled =
      some (.finished outs)) :
    (processFiles opts files store taskBeh m0).ops =
      ops0 ++ [.add opts.name key (.json (.arr (outs.map
        (fun f => JVal.obj (fileObjFields (fileToObj f))))))] ∧
    (∀ f ∈ outs,
      hasField (fileObjFields (fileToObj f)) "originalPath" = false ∧
      hasField (fileObjFields (fileToObj f)) "filePathChangedInsideTask" =
        false) := by
  refine ⟨?_, fun f _ => fileObjFields_no_stamps (fileToObj f)⟩
  unfold processFiles
  rw [hmiss]
  simp only [runProxiedTaskAndCache, hout]
  simp [successEval, hsuc, storeCachedResult, getValueFromResult, hval, hm,
    encodeStoredValue, List.map_map]

/-- Witness for the amended C4 at a concrete many-to-many run. -/
theorem m2m_store_shape_witness :
    (processFiles (defaultOpts "v1" true) [sampleIn] [] m2mBeh 0).ops =
      [StoreOp.get "default" sampleKey] ++
        [StoreOp.add "default" sampleKey (.json (.arr ([sampleOut].map
          (fun f => JVal.obj (fileObjFields (fileToObj f))))))] ∧
    (∀ f ∈ [sampleOut],
      hasField (fileObjFields (fileToObj f)) "originalPath" = false ∧
      hasField (fileObjFields (fileToObj f)) "filePathChangedInsideTask" =
        false) := by
  have h := m2m_store_shape (defaultOpts "v1" true) [sampleIn] [] m2mBeh 0
    [sampleOut] sampleKey [StoreOp.get "default" sampleKey]
    rfl rfl rfl rfl rfl
  exact h

/-! ### C1 -/

/-- The task path always engages the bridge, whatever the key and
however the run settles. -/
theorem runProxied_bridge (opts : Opts) (files : List VFile)
    (key : Option String) (taskBeh : List VFile → List TaskEvent)
    (m0 : Nat) :
    (runProxiedTaskAndCache opts files key taskBeh m0).bridge =
      some (bridgeRun opts.manyToMany m0
        (taskBeh (if opts.manyToMany then files else files.take 1))) := by
  unfold runProxiedTaskAndCache
  cases hst : (bridgeRun opts.manyToMany m0
      (taskBeh (if opts.manyToMany then files else files.take 1))).settled with
  | none => simp [hst]
  | some d =>
    cases d with
    | failed e => simp [hst]
    | finished outs =>
      cases hs : successEval opts outs with
      | error e => simp [hst, hs]
      | ok b =>
        cases b with
        | false => simp [hst, hs]
        | true =>
          cases hsc : storeCachedResult opts (origPath0 files) key outs with
          | error e => simp [hst, hs, hsc]
          | ok addOps => simp [hst, hs, hsc]

/-- Fixture: a stored one-to-one value whose path equals the input's
current path but whose original path differs, with the changed-path flag
set. -/
def staleStored : JVal :=
  JVal.obj [("cwd", JVal.str "/"), ("base", JVal.str "/"),
    ("contents", JVal.null), ("stat", JVal.null),
    ("history", JVal.arr [JVal.str "b.txt"]), ("path", JVal.str "b.txt"),
    ("filePathChangedInsideTask", JVal.bool true),
    ("originalPath", JVal.str "a.txt")]

/-- Fixture: the current input at path b.txt. -/
def staleIn : VFile :=
  { cwd := "/", base := "/", stat := JVal.null,
    contents := Contents.buf [1], history := ["b.txt"], extras := [] }

/-- Fixture: options with a fixed key. -/
def fixedKeyOpts : Opts :=
  { name := "n", manyToMany := false, keyFn := fun _ => some "k",
    success := .always, value := .defaultVal }

/-- Fixture: a store holding the stale value under the fixed key. -/
def staleStore : Store := [("n", makeHash "k", JStored.json staleStored)]

set_option maxRecDepth 8192 in
/-- C1 counterexample: a cached value is found whose stored path equals
the current input's path — by the claim's three-part condition the value
should be accepted — yet the flag is set, the stored original path
differs, and the orchestrator re-runs the wrapped task. -/
theorem hit_fallthrough_counterexample :
    checkForCachedValue fixedKeyOpts [staleIn] staleStore =
      (.found (some (makeHash "k"))
        (some (.one (restoreFileFromObj staleStored))),
       [StoreOp.get "n" (makeHash "k")]) ∧
    (restoreFileFromObj staleStored).path = staleIn.path ∧
    truthyOpt (lookupField (restoreFileFromObj staleStored).extras
      "filePathChangedInsideTask") = true ∧
    jsEqStrOpt (lookupField (restoreFileFromObj staleStored).extras
      "originalPath") staleIn.path = false ∧
    (processFiles fixedKeyOpts [staleIn] staleStore oneOutBeh 0).bridge.isSome
      = true :=
  ⟨rfl, rfl, rfl, rfl, rfl⟩

/-- C1 amended: on a one-to-one hit the orchestrator re-runs the wrapped
task exactly when the stored value marks the path as changed inside the
task and its stored original path is not strictly equal to the current
input's path; in every other hit case the value is accepted, merged onto
the input, and the task is not invoked.  The stored value's own path is
not consulted. -/
theorem hit_fallthrough_rule (opts : Opts) (fI : VFile)
    (rest : List VFile) (store : Store)
    (taskBeh : List VFile → List TaskEvent) (m0 : Nat) (v : VFile)
    (key : Option String) (ops0 : List StoreOp)
    (hm : opts.manyToMany = false)
    (hhit : checkForCachedValue opts (fI :: rest) store =
      (.found key (some (.one v)), ops0)) :
    ((processFiles opts (fI :: rest) store taskBeh m0).bridge.isSome = true ↔
      (truthyOpt (lookupField v.extras "filePathChangedInsideTask") = true ∧
       jsEqStrOpt (lookupField v.extras "originalPath") fI.path = false)) ∧
    ((truthyOpt (lookupField v.extras "filePathChangedInsideTask") = false ∨
      jsEqStrOpt (lookupField v.extras "originalPath") fI.path = true) →
      processFiles opts (fI :: rest) store taskBeh m0 =
        ⟨.resolved [mergeHit fI v], ops0, none, []⟩) := by
  have hbr := runProxied_bridge opts (fI :: rest) key taskBeh m0
  unfold processFiles
  rw [hhit]
  cases ha : truthyOpt (lookupField v.extras "filePathChangedInsideTask") <;>
    cases hb : jsEqStrOpt (lookupField v.extras "originalPath") fI.path
  · have hacc : hitAccepted fI v = true := by
      simp [hitAccepted, ha, hb]
    simp [hacc]
  · have hacc : hitAccepted fI v = true := by
      simp [hitAccepted, ha, hb]
    simp [hacc]
  · have hacc : hitAccepted fI v = false := by
      simp [hitAccepted, ha, hb]
    simp only [hacc, Bool.false_eq_true, if_false]
    constructor
    · simp [hbr]
    · intro h
      rcases h with h | h <;> first
        | exact h.elim
        | simp at h
  · have hacc : hitAccepted fI v = true := by
      simp [hitAccepted, ha, hb]
    simp [hacc]

/-- Fixture: a stored value whose original path matches the current
input's path, so the hit must be accepted even with the flag set. -/
def acceptStored : JVal :=
  JVal.obj [("cwd", JVal.str "/"), ("base", JVal.str "/"),
    ("contents", JVal.null), ("stat", JVal.null),
    ("history", JVal.arr [JVal.str "c.txt"]), ("path", JVal.str "c.txt"),
    ("filePathChangedInsideTask", JVal.bool true),
    ("originalPath", JVal.str "b.txt")]

/-- Fixture: a store holding the accepted value under the fixed key. -/
def acceptStore : Store := [("n", makeHash "k", JStored.json acceptStored)]

set_option maxRecDepth 8192 in
/-- Witness for the amended C1 at a concrete accepted hit. -/
theorem hit_fallthrough_rule_witness :
    ((processFiles fixedKeyOpts [staleIn] acceptStore oneOutBeh 0).bridge.isSome
        = true ↔
      (truthyOpt (lookupField (restoreFileFromObj acceptStored).extras
        "filePathChangedInsideTask") = true ∧
       jsEqStrOpt (lookupField (restoreFileFromObj acceptStored).extras
        "originalPath") staleIn.path = false)) ∧
    ((truthyOpt (lookupField (restoreFileFromObj acceptStored).extras
        "filePathChangedInsideTask") = false ∨
      jsEqStrOpt (lookupField (restoreFileFromObj acceptStored).extras
        "originalPath") staleIn.path = true) →
      processFiles fixedKeyOpts [staleIn] acceptStore oneOutBeh 0 =
        ⟨.resolved [mergeHit staleIn (restoreFileFromObj acceptStored)],
         [StoreOp.get "n" (makeHash "k")], none, []⟩) :=
  hit_fallthrough_rule fixedKeyOpts staleIn [] acceptStore oneOutBeh 0
    (restoreFileFromObj acceptStored) (some (makeHash "k"))
    [StoreOp.get "n" (makeHash "k")] rfl rfl

/-! ### C8 -/

/-- Appending an entry makes it the last one. -/
theorem getLast?_snoc (l : List String) (a : String) :
    (l ++ [a]).getLast? = some a := by
  simp

/-- C8: an accepted one-to-one hit resolves with the stored value merged
onto the current input: cwd, base and stat keep the input's values, the
contents and the non-structural properties come from the stored value,
and the merged path is overwritten to the stored path exactly when the
stored value carries a truthy path and marks it as changed inside the
task — otherwise the input's history (hence its path) is untouched. -/
theorem hit_merge_frame (opts : Opts) (fI : VFile) (rest : List VFile)
    (store : Store) (taskBeh : List VFile → List TaskEvent) (m0 : Nat)
    (v : VFile) (key : Option String) (ops0 : List StoreOp)
    (hhit : checkForCachedValue opts (fI :: rest) store =
      (.found key (some (.one v)), ops0))
    (hacc : hitAccepted fI v = true) :
    processFiles opts (fI :: rest) store taskBeh m0 =
      ⟨.resolved [mergeHit fI v], ops0, none, []⟩ ∧
    (mergeHit fI v).cwd = fI.cwd ∧
    (mergeHit fI v).base = fI.base ∧
    (mergeHit fI v).stat = fI.stat ∧
    (mergeHit fI v).contents = v.contents ∧
    (mergeHit fI v).extras = assignFields fI.extras v.extras ∧
    (∀ p, v.path = some p → p ≠ "" →
      truthyOpt (lookupField v.extras "filePathChangedInsideTask") = true →
      (mergeHit fI v).path = some p) ∧
    ((v.path = none ∨ v.path = some "" ∨
      truthyOpt (lookupField v.extras "filePathChangedInsideTask") = false) →
      (mergeHit fI v).history = fI.history) := by
  refine ⟨?_, ?_, ?_, ?_, ?_, ?_, ?_, ?_⟩
  · unfold processFiles
    rw [hhit]
    simp [hacc]
  · cases hp : v.path <;>
      simp [mergeHit, VFile.setPath, hp] <;> split <;> rfl
  · cases hp : v.path <;>
      simp [mergeHit, VFile.setPath, hp] <;> split <;> rfl
  · cases hp : v.path <;>
      simp [mergeHit, VFile.setPath, hp] <;> split <;> rfl
  · cases hp : v.path <;>
      simp [mergeHit, VFile.setPath, hp] <;> split <;> rfl
  · cases hp : v.path <;>
      simp [mergeHit, VFile.setPath, hp] <;> split <;> rfl
  · intro p hp hpne hflag
    simp only [mergeHit, hp]
    rw [if_pos ⟨hpne, hflag⟩]
    unfold VFile.setPath VFile.path pathPush
    by_cases hl : fI.history.getLast? = some p
    · rw [if_neg (by simp [hl])]
      exact hl
    · rw [if_pos ⟨hpne, by simp [hl]⟩]
      exact getLast?_snoc _ _
  · intro h
    rcases h with h | h | h
    · simp [mergeHit, h]
    · simp [mergeHit, h]
    · cases hp : v.path with
      | none => simp [mergeHit, hp]
      | some p => simp [mergeHit, hp, h]

set_option maxRecDepth 8192 in
/-- Witness for C8 at a concrete accepted hit whose stored path was
changed inside the task. -/
theorem hit_merge_frame_witness :
    processFiles fixedKeyOpts [staleIn] acceptStore oneOutBeh 0 =
      ⟨.resolved [mergeHit staleIn (restoreFileFromObj acceptStored)],
       [StoreOp.get "n" (makeHash "k")], none, []⟩ ∧
    (mergeHit staleIn (restoreFileFromObj acceptStored)).cwd = staleIn.cwd ∧
    (mergeHit staleIn (restoreFileFromObj acceptStored)).stat = staleIn.stat ∧
    (mergeHit staleIn (restoreFileFromObj acceptStored)).path =
      some "c.txt" := by
  have h := hit_merge_frame fixedKeyOpts staleIn [] acceptStore oneOutBeh 0
    (restoreFileFromObj acceptStored) (some (makeHash "k"))
    [StoreOp.get "n" (makeHash "k")] rfl rfl
  exact ⟨h.1, h.2.1, h.2.2.2.1,
    h.2.2.2.2.2.2.1 "c.txt" rfl (by decide) rfl⟩

/-! ### C2: round-trip support lemmas -/

/-- Retained-property agreement between an original file and a restored
one: everything the default extraction picks is reproduced. -/
def restoredEq (f r : VFile) : Prop :=
  r.cwd = f.cwd ∧ r.base = f.base ∧ r.stat = f.stat ∧
  r.contents = f.contents ∧ r.history = f.history ∧ r.path = f.path

/-- Lookup misses a list none of whose keys match. -/
theorem lookupField_none_of (fs : List (String × JVal)) (k : String)
    (h : ∀ kv ∈ fs, kv.fst ≠ k) : lookupField fs k = none := by
  induction fs with
  | nil => rfl
  | cons kv rest ih =>
    have hk : kv.fst ≠ k := h kv (List.mem_cons_self kv rest)
    simp only [lookupField]
    rw [if_neg hk]
    exact ih fun x hx => h x (List.mem_cons_of_mem _ hx)

/-- Reducing bytes below 256 is the identity. -/
theorem map_mod_id (bs : List Nat) (h : bs.all (fun b => b < 256) = true) :
    bs.map (fun b => b % 256) = bs := by
  induction bs with
  | nil => rfl
  | cons b rest ih =>
    simp only [List.all_cons, Bool.and_eq_true, decide_eq_true_eq] at h
    simp [Nat.mod_eq_of_lt h.1, ih h.2]

/-- String members of a serialized string list are the list itself. -/
theorem strMembers_map (H : List String) :
    strMembers (JVal.arr (H.map JVal.str)) = H := by
  induction H with
  | nil => rfl
  | cons p ps ih =>
    simp only [strMembers, List.map_cons, List.filterMap_cons] at ih ⊢
    rw [ih]

/-- Replaying a concatenation replays the parts in order. -/
theorem replay_append (xs ys : List String) :
    ∀ h, replayHistory h (xs ++ ys) =
      replayHistory (replayHistory h xs) ys := by
  induction xs with
  | nil => intro h; rfl
  | cons p ps ih =>
    intro h
    simp only [List.cons_append, replayHistory]
    exact ih (pathPush h p)

/-- Replaying a setter-built suffix appends it verbatim. -/
theorem replay_id (ps : List String) :
    ∀ h, histOk h.getLast? ps = true → replayHistory h ps = h ++ ps := by
  induction ps with
  | nil => intro h _; simp [replayHistory]
  | cons p rest ih =>
    intro h hok
    simp only [histOk, Bool.and_eq_true, decide_eq_true_eq] at hok
    have hpush : pathPush h p = h ++ [p] := by
      unfold pathPush
      rw [if_pos ⟨hok.1.1, fun hEq => hok.1.2 hEq.symm⟩]
    simp only [replayHistory, hpush]
    have hlast : (h ++ [p]).getLast? = some p := getLast?_snoc h p
    have := ih (h ++ [p]) (by rw [hlast]; exact hok.2)
    rw [this]
    simp

/-- In a setter-built history the last entry is truthy. -/
theorem histOk_getLast_ne (H : List String) :
    ∀ prev p, histOk prev H = true → H.getLast? = some p → p ≠ "" := by
  induction H with
  | nil =>
    intro prev p _ hp
    simp at hp
  | cons q rest ih =>
    intro prev p hok hp
    simp only [histOk, Bool.and_eq_true, decide_eq_true_eq] at hok
    cases rest with
    | nil =>
      simp at hp
      rw [← hp]
      exact hok.1.1
    | cons a as =>
      rw [List.getLast?_cons_cons] at hp
      exact ih (some q) p hok.2 hp

/-- The property-overlay step never changes cwd, base, stat or
contents. -/
theorem applyExtra_frame (fs : List (String × JVal)) :
    ∀ f : VFile, (applyExtraProps f fs).cwd = f.cwd ∧
      (applyExtraProps f fs).base = f.base ∧
      (applyExtraProps f fs).stat = f.stat ∧
      (applyExtraProps f fs).contents = f.contents := by
  induction fs with
  | nil => intro f; exact ⟨rfl, rfl, rfl, rfl⟩
  | cons kv rest ih =>
    intro f
    simp only [applyExtraProps, List.foldl_cons] at ih ⊢
    by_cases hk : kv.fst = "path"
    · rw [if_pos hk]
      cases hv : kv.snd with
      | str p =>
        obtain ⟨h1, h2, h3, h4⟩ := ih (f.setPath p)
        exact ⟨h1, h2, h3, h4⟩
      | null => exact ih f
      | bool b => exact ih f
      | num n => exact ih f
      | arr xs => exact ih f
      | obj fs2 => exact ih f
    · rw [if_neg hk]
      obtain ⟨h1, h2, h3, h4⟩ :=
        ih { f with extras := setField f.extras kv.fst kv.snd }
      exact ⟨h1, h2, h3, h4⟩

/-- The property-overlay step changes the history only through `path`
keys. -/
theorem applyExtra_history (fs : List (String × JVal)) :
    ∀ f : VFile, (∀ kv ∈ fs, kv.fst ≠ "path") →
      (applyExtraProps f fs).history = f.history := by
  induction fs with
  | nil => intro f _; rfl
  | cons kv rest ih =>
    intro f h
    have hk : kv.fst ≠ "path" := h kv (List.mem_cons_self kv rest)
    simp only [applyExtraProps, List.foldl_cons] at ih ⊢
    rw [if_neg hk]
    exact ih _ fun x hx => h x (List.mem_cons_of_mem _ hx)

/-- Overlaying a concatenation overlays the parts in order. -/
theorem applyExtra_append (f : VFile) (xs ys : List (String × JVal)) :
    applyExtraProps f (xs ++ ys) =
      applyExtraProps (applyExtraProps f xs) ys := by
  simp [applyExtraProps, List.foldl_append]

/-- Core of C2: restoring the serialized picked object of a well-formed
file — possibly extended with bookkeeping stamps that use none of the
structural keys — reproduces every picked property of the file. -/
theorem restore_fileObj (f : VFile) (extra : List (String × JVal))
    (hwf : wfFile f = true)
    (hext : ∀ kv ∈ extra, ¬ kv.fst ∈ ("path" :: vinylOwnKeys)) :
    restoredEq f (restoreFileFromObj
      (JVal.obj (fileObjFields (fileToObj f) ++ extra))) := by
  have hw : (f.cwd ≠ "") ∧ (f.base ≠ "") ∧ statOk f.stat = true ∧
      bytesOk f.contents = true ∧ histOk none f.history = true := by
    simpa [wfFile, Bool.and_eq_true, decide_eq_true_eq, and_assoc] using hwf
  obtain ⟨hcwd, hbase, hstat, hbytes, hhist⟩ := hw
  have hextNotPath : ∀ kv ∈ extra, kv.fst ≠ "path" := by
    intro kv hkv hkk
    exact hext kv hkv (by rw [hkk]; exact List.mem_cons_self _ _)
  have hextNotOwn : ∀ kv ∈ extra, ¬ kv.fst ∈ vinylOwnKeys := by
    intro kv hkv hkk
    exact hext kv hkv (List.mem_cons_of_mem _ hkk)
  have hpathNone : lookupField extra "path" = none := by
    apply lookupField_none_of
    intro kv hkv
    exact hextNotPath kv hkv
  have lcwd : lookupField (fileObjFields (fileToObj f) ++ extra) "cwd" =
      some (JVal.str f.cwd) := by
    cases hp : VFile.path f <;> simp [fileObjFields, fileToObj, lookupField, hp]
  have lbase : lookupField (fileObjFields (fileToObj f) ++ extra) "base" =
      some (JVal.str f.base) := by
    cases hp : VFile.path f <;> simp [fileObjFields, fileToObj, lookupField, hp]
  have lstat : lookupField (fileObjFields (fileToObj f) ++ extra) "stat" =
      some f.stat := by
    cases hp : VFile.path f <;> simp [fileObjFields, fileToObj, lookupField, hp]
  have lcont : lookupField (fileObjFields (fileToObj f) ++ extra) "contents" =
      some (contentsToJVal f.contents) := by
    cases hp : VFile.path f <;> simp [fileObjFields, fileToObj, lookupField, hp]
  have lhist : lookupField (fileObjFields (fileToObj f) ++ extra) "history" =
      some (JVal.arr (f.history.map JVal.str)) := by
    cases hp : VFile.path f <;> simp [fileObjFields, fileToObj, lookupField, hp]
  have hdec : (match lookupField (fileObjFields (fileToObj f) ++ extra)
        "contents" with
      | some cv => decodeContents cv
      | none => Contents.null) = f.contents := by
    rw [lcont]
    cases hcs : f.contents with
    | null => simp [contentsToJVal, decodeContents, JVal.truthy]
    | buf bs =>
      rw [hcs] at hbytes
      simp only [bytesOk] at hbytes
      simp [contentsToJVal, bufferToJVal, decodeContents, JVal.truthy,
        lookupField, jnumByte, List.map_map, Function.comp]
      exact map_mod_id bs hbytes
    | stream =>
      rw [hcs] at hbytes
      simp [bytesOk] at hbytes
    | other v =>
      rw [hcs] at hbytes
      simp [bytesOk] at hbytes
  have hstatEq : (if JVal.truthy f.stat = true then f.stat else JVal.null) =
      f.stat := by
    cases hst : f.stat <;> rw [hst] at hstat <;>
      simp_all [statOk, JVal.truthy]
  have hcid : (match f.contents with
      | Contents.null => Contents.null
      | c => c) = f.contents := by
    cases f.contents <;> rfl
  cases hpath : VFile.path f with
  | none =>
    have hH : f.history = [] := by
      rw [VFile.path] at hpath
      rwa [List.getLast?_eq_none_iff] at hpath
    have lpath : lookupField (fileObjFields (fileToObj f) ++ extra) "path" =
        none := by
      simp [fileObjFields, fileToObj, hpath, lookupField, hpathNone]
    have hnf : newFile (fileObjFields (fileToObj f) ++ extra)
        (match lookupField (fileObjFields (fileToObj f) ++ extra)
            "contents" with
         | some cv => decodeContents cv
         | none => Contents.null) =
        { cwd := f.cwd, base := f.base, stat := f.stat,
          contents := f.contents, history := f.history, extras := [] } := by
      simp only [newFile, lcwd, lbase, lstat, lhist, lpath, hdec]
      simp [hcwd, hbase, hstatEq, hcid, strMembers_map, hH, replayHistory]
    have hfilter : (fileObjFields (fileToObj f) ++ extra).filter
        (fun kv => kv.fst ∉ vinylOwnKeys) = extra := by
      rw [List.filter_append]
      have h1 : (fileObjFields (fileToObj f)).filter
          (fun kv => kv.fst ∉ vinylOwnKeys) = [] := by
        simp [fileObjFields, fileToObj, hpath, vinylOwnKeys]
      have h2 : extra.filter (fun kv => kv.fst ∉ vinylOwnKeys) = extra :=
        List.filter_eq_self.mpr
          (fun kv hkv => by simpa using hextNotOwn kv hkv)
      rw [h1, h2]
      rfl
    simp only [restoreFileFromObj, toFields]
    rw [hnf, hfilter]
    obtain ⟨e1, e2, e3, e4⟩ := applyExtra_frame extra
      { cwd := f.cwd, base := f.base, stat := f.stat,
        contents := f.contents, history := f.history, extras := [] }
    have e5 := applyExtra_history extra
      { cwd := f.cwd, base := f.base, stat := f.stat,
        contents := f.contents, history := f.history, extras := [] }
      hextNotPath
    exact ⟨e1, e2, e3, e4, e5, by unfold VFile.path; rw [e5]⟩
  | some p0 =>
    have hpath' : f.history.getLast? = some p0 := hpath
    have hp0ne : p0 ≠ "" := histOk_getLast_ne f.history none p0 hhist hpath'
    have lpath : lookupField (fileObjFields (fileToObj f) ++ extra) "path" =
        some (JVal.str p0) := by
      simp [fileObjFields, fileToObj, hpath, lookupField]
    have hrep : replayHistory [] (f.history ++ [p0]) = f.history := by
      rw [replay_append]
      have h1 : replayHistory [] f.history = f.history := by
        have := replay_id f.history [] (by simpa using hhist)
        simpa using this
      rw [h1]
      simp only [replayHistory]
      unfold pathPush
      rw [if_neg (fun hcon => hcon.2 hpath')]
    have hnf : newFile (fileObjFields (fileToObj f) ++ extra)
        (match lookupField (fileObjFields (fileToObj f) ++ extra)
            "contents" with
         | some cv => decodeContents cv
         | none => Contents.null) =
        { cwd := f.cwd, base := f.base, stat := f.stat,
          contents := f.contents, history := f.history, extras := [] } := by
      simp only [newFile, lcwd, lbase, lstat, lhist, lpath, hdec]
      simp [hcwd, hbase, hstatEq, hcid, strMembers_map, hp0ne, hrep]
    have hfilter : (fileObjFields (fileToObj f) ++ extra).filter
        (fun kv => kv.fst ∉ vinylOwnKeys) =
        ("path", JVal.str p0) :: extra := by
      rw [List.filter_append]
      have h1 : (fileObjFields (fileToObj f)).filter
          (fun kv => kv.fst ∉ vinylOwnKeys) = [("path", JVal.str p0)] := by
        simp [fileObjFields, fileToObj, hpath, vinylOwnKeys]
      have h2 : extra.filter (fun kv => kv.fst ∉ vinylOwnKeys) = extra :=
        List.filter_eq_self.mpr
          (fun kv hkv => by simpa using hextNotOwn kv hkv)
      rw [h1, h2]
      rfl
    simp only [restoreFileFromObj, toFields]
    rw [hnf, hfilter]
    have hstep : applyExtraProps
        { cwd := f.cwd, base := f.base, stat := f.stat,
          contents := f.contents, history := f.history, extras := [] }
        [("path", JVal.str p0)] =
        { cwd := f.cwd, base := f.base, stat := f.stat,
          contents := f.contents, history := f.history, extras := [] } := by
      simp [applyExtraProps, VFile.setPath, pathPush, hpath']
    have hcons : (("path", JVal.str p0) :: extra) =
        [("path", JVal.str p0)] ++ extra := rfl
    rw [hcons, applyExtra_append, hstep]
    obtain ⟨e1, e2, e3, e4⟩ := applyExtra_frame extra
      { cwd := f.cwd, base := f.base, stat := f.stat,
        contents := f.contents, history := f.history, extras := [] }
    have e5 := applyExtra_history extra
      { cwd := f.cwd, base := f.base, stat := f.stat,
        contents := f.contents, history := f.history, extras := [] }
      hextNotPath
    exact ⟨e1, e2, e3, e4, e5, by unfold VFile.path; rw [e5]⟩

/-- The bookkeeping stamps use no structural key. -/
theorem stamps_not_structural (o : FileObj) (orig : Option String) :
    ∀ kv ∈ ((if o.path ≠ orig then
        [("filePathChangedInsideTask", JVal.bool true)] else []) ++
      (match orig with
       | some p => [("originalPath", JVal.str p)]
       | none => [])),
      ¬ kv.fst ∈ ("path" :: vinylOwnKeys) := by
  intro kv hkv
  rcases List.mem_append.mp hkv with h | h
  · split at h
    · rw [List.mem_singleton] at h
      subst h
      decide
    · simp at h
  · cases orig with
    | some p =>
      rw [List.mem_singleton] at h
      subst h
      show ¬ ("originalPath" : String) ∈ ("path" :: vinylOwnKeys)
      decide
    | none => simp at h

/-- C2: the stored form of a one-to-one result is the serialized picked
object plus the stamps, and decoding and restoring it reproduces every
picked property of the output bit-for-bit, including the binary
contents; a many-to-many result is stored as the plain array of picked
objects and restores element-wise the same way. -/
theorem round_trip (f : VFile) (fs : List VFile) (orig : Option String)
    (hf : wfFile f = true) (hfs : ∀ g ∈ fs, wfFile g = true) :
    (encodeStoredValue (SVal.objv (fileToObj f)) orig =
       .ok (.json (encodeObjVal (fileToObj f) orig)) ∧
     restoredEq f (restoreFileFromObj
       (tryJsonParseStored (JStored.json
         (encodeObjVal (fileToObj f) orig))))) ∧
    (encodeStoredValue (SVal.batch (fs.map fileToObj)) orig =
       .ok (.json (.arr (fs.map
         (fun g => JVal.obj (fileObjFields (fileToObj g)))))) ∧
     ∀ g ∈ fs, restoredEq g (restoreFileFromObj
       (JVal.obj (fileObjFields (fileToObj g))))) := by
  refine ⟨⟨rfl, ?_⟩, ⟨?_, ?_⟩⟩
  · show restoredEq f (restoreFileFromObj (encodeObjVal (fileToObj f) orig))
    unfold encodeObjVal
    rw [List.append_assoc]
    exact restore_fileObj f _ hf (stamps_not_structural (fileToObj f) orig)
  · simp [encodeStoredValue, List.map_map]
  · intro g hg
    have h := restore_fileObj g [] (hfs g hg) (by intro kv hkv; simp at hkv)
    simpa using h

/-- Witness for C2 at a concrete output file with binary contents. -/
theorem round_trip_witness :
    wfFile sampleOut = true ∧
    restoredEq sampleOut (restoreFileFromObj
      (tryJsonParseStored (JStored.json
        (encodeObjVal (fileToObj sampleOut) (some "a.txt"))))) :=
  ⟨by decide,
   (round_trip sampleOut [] (some "a.txt") (by decide)
     (by intro g hg; simp at hg)).1.2⟩

/-! ### C10 -/

/-- The task path writes only the invocation's own files. -/
theorem runProxied_written_eq (opts : Opts) (files : List VFile)
    (key : Option String) (taskBeh : List VFile → List TaskEvent)
    (m0 : Nat) :
    (runProxiedTaskAndCache opts files key taskBeh m0).written =
      (if opts.manyToMany then files else files.take 1) := by
  unfold runProxiedTaskAndCache
  cases hst : (bridgeRun opts.manyToMany m0
      (taskBeh (if opts.manyToMany then files else files.take 1))).settled with
  | none => simp [hst]
  | some d =>
    cases d with
    | failed e => simp [hst]
    | finished outs =>
      cases hs : successEval opts outs with
      | error e => simp [hst, hs]
      | ok b =>
        cases b with
        | false => simp [hst, hs]
        | true =>
          cases hsc : storeCachedResult opts (origPath0 files) key outs with
          | error e => simp [hst, hs, hsc]
          | ok addOps => simp [hst, hs, hsc]

/-- An invocation never writes a file that is not among its inputs. -/
theorem processFiles_written_sub (opts : Opts) (files : List VFile)
    (store : Store) (taskBeh : List VFile → List TaskEvent) (m0 : Nat) :
    (processFiles opts files store taskBeh m0).written ⊆ files := by
  have hsel : (if opts.manyToMany then files else files.take 1) ⊆ files := by
    split
    · exact List.Subset.refl files
    · exact List.take_subset 1 files
  unfold processFiles
  cases hch : checkForCachedValue opts files store with
  | mk cr ops =>
    cases cr with
    | restoreErr e => simp
    | found key hv =>
      cases hv with
      | none =>
        simp only []
        rw [runProxied_written_eq]
        exact hsel
      | some hval =>
        cases hval with
        | many fs => simp
        | one v =>
          cases files with
          | nil => simp
          | cons fI rest =>
            simp only []
            by_cases hacc : hitAccepted fI v = true
            · simp [hacc]
            · rw [if_neg hacc]
              simp only []
              rw [runProxied_written_eq]
              exact hsel

/-- Stream invariant for C10 (caching entry point): a null-content file
never enters the collected batch, is forwarded downstream on an error- and
stall-free run, belongs to no processed batch, and is never written into
the wrapped task. -/
theorem streamGo_null (opts : Opts) (taskBeh : List VFile → List TaskEvent)
    (m0 : Nat) (f : VFile) (hnull : isNullFile f = true) :
    ∀ (inputs : List VFile) (store : Store) (collected : List VFile),
      f ∉ collected →
      (((streamGo opts taskBeh m0 store collected inputs).errored = none →
        (streamGo opts taskBeh m0 store collected inputs).stalled = false →
        f ∈ inputs →
        f ∈ (streamGo opts taskBeh m0 store collected inputs).outputs) ∧
       (∀ b ∈ (streamGo opts taskBeh m0 store collected inputs).processed,
         f ∉ b) ∧
       f ∉ (streamGo opts taskBeh m0 store collected inputs).written) := by
  intro inputs
  induction inputs with
  | nil =>
    intro store collected hcol
    simp only [streamGo, streamFlush]
    by_cases hm : opts.manyToMany
    · rw [if_pos hm]
      have hwr := processFiles_written_sub opts collected store taskBeh m0
      cases hout : (processFiles opts collected store taskBeh m0).outcome with
      | resolved fs =>
        refine ⟨fun _ _ hmem => absurd hmem (List.not_mem_nil f), ?_, ?_⟩
        · intro b hb
          rw [List.mem_singleton] at hb
          subst hb
          exact hcol
        · exact fun hw => hcol (hwr hw)
      | rejected e =>
        refine ⟨fun he => by simp at he, ?_, ?_⟩
        · intro b hb
          rw [List.mem_singleton] at hb
          subst hb
          exact hcol
        · exact fun hw => hcol (hwr hw)
      | pending =>
        refine ⟨fun _ _ hmem => absurd hmem (List.not_mem_nil f), ?_, ?_⟩
        · intro b hb
          rw [List.mem_singleton] at hb
          subst hb
          exact hcol
        · exact fun hw => hcol (hwr hw)
    · rw [if_neg hm]
      exact ⟨fun _ _ hmem => absurd hmem (List.not_mem_nil f),
        fun b hb => absurd hb (List.not_mem_nil b),
        List.not_mem_nil f⟩
  | cons g rest ih =>
    intro store collected hcol
    by_cases hg1 : isNullFile g = true
    · simp only [streamGo, hg1, if_true]
      obtain ⟨ih1, ih2, ih3⟩ := ih store collected hcol
      refine ⟨?_, ih2, ih3⟩
      intro he hs hmem
      rcases List.mem_cons.mp hmem with hfg | hfr
      · subst hfg
        exact List.mem_cons_self _ _
      · exact List.mem_cons_of_mem _ (ih1 he hs hfr)
    · have hfg : f ≠ g := fun hEq => hg1 (hEq ▸ hnull)
      by_cases hg2 : isStreamFile g = true
      · simp only [streamGo, hg1, hg2, Bool.false_eq_true, if_false, if_true]
        exact ⟨fun he => by simp at he,
          fun b hb => absurd hb (List.not_mem_nil b),
          List.not_mem_nil f⟩
      · by_cases hm : opts.manyToMany
        · simp only [streamGo, hg1, hg2, hm, Bool.false_eq_true, if_false,
            if_true]
          have hcol' : f ∉ collected ++ [g] := by
            intro hmem
            rcases List.mem_append.mp hmem with h | h
            · exact hcol h
            · rw [List.mem_singleton] at h
              exact hfg h
          obtain ⟨ih1, ih2, ih3⟩ := ih store (collected ++ [g]) hcol'
          refine ⟨?_, ih2, ih3⟩
          intro he hs hmem
          rcases List.mem_cons.mp hmem with h | h
          · exact absurd h hfg
          · exact ih1 he hs h
        · have hwr1 : f ∉ (processFiles opts [g] store taskBeh m0).written := by
            intro hw
            have := processFiles_written_sub opts [g] store taskBeh m0 hw
            rw [List.mem_singleton] at this
            exact hfg this
          simp only [streamGo, hg1, hg2, hm, Bool.false_eq_true, if_false,
            if_true]
          cases hout : (processFiles opts [g] store taskBeh m0).outcome with
          | resolved fs =>
            obtain ⟨ih1, ih2, ih3⟩ := ih
              (applyOps store (processFiles opts [g] store taskBeh m0).ops)
              collected hcol
            refine ⟨?_, ?_, ?_⟩
            · intro he hs hmem
              rcases List.mem_cons.mp hmem with h | h
              · exact absurd h hfg
              · exact List.mem_append_right fs (ih1 he hs h)
            · intro b hb
              rcases List.mem_cons.mp hb with h | h
              · subst h
                intro hmem
                rw [List.mem_singleton] at hmem
                exact hfg hmem
              · exact ih2 b h
            · intro hw
              rcases List.mem_append.mp hw with h | h
              · exact hwr1 h
              · exact ih3 h
          | rejected e =>
            refine ⟨fun he => by simp at he, ?_, hwr1⟩
            intro b hb
            rw [List.mem_singleton] at hb
            subst hb
            intro hmem
            rw [List.mem_singleton] at hmem
            exact hfg hmem
          | pending =>
            refine ⟨fun _ hs => by simp at hs, ?_, hwr1⟩
            intro b hb
            rw [List.mem_singleton] at hb
            subst hb
            intro hmem
            rw [List.mem_singleton] at hmem
            exact hfg hmem

/-- Stream invariant for C10 (invalidation entry point): a null-content
file is forwarded on an error-free run and belongs to no batch whose key
is removed. -/
theorem clearGo_null (opts : Opts) (f : VFile)
    (hnull : isNullFile f = true) :
    ∀ (inputs : List VFile) (collected : List VFile),
      f ∉ collected →
      (((clearGo opts collected inputs).errored = none →
        f ∈ inputs → f ∈ (clearGo opts collected inputs).outputs) ∧
       (∀ b ∈ (clearGo opts collected inputs).processed, f ∉ b)) := by
  intro inputs
  induction inputs with
  | nil =>
    intro collected hcol
    simp only [clearGo, clearFlush]
    by_cases hm : opts.manyToMany
    · rw [if_pos hm]
      refine ⟨fun _ hmem => absurd hmem (List.not_mem_nil f), ?_⟩
      intro b hb
      rw [List.mem_singleton] at hb
      subst hb
      exact hcol
    · rw [if_neg hm]
      exact ⟨fun _ hmem => absurd hmem (List.not_mem_nil f),
        fun b hb => absurd hb (List.not_mem_nil b)⟩
  | cons g rest ih =>
    intro collected hcol
    by_cases hg1 : isNullFile g = true
    · simp only [clearGo, hg1, if_true]
      obtain ⟨ih1, ih2⟩ := ih collected hcol
      refine ⟨?_, ih2⟩
      intro he hmem
      rcases List.mem_cons.mp hmem with hfgEq | hfr
      · subst hfgEq
        exact List.mem_cons_self _ _
      · exact List.mem_cons_of_mem _ (ih1 he hfr)
    · have hfg : f ≠ g := fun hEq => hg1 (hEq ▸ hnull)
      by_cases hg2 : isStreamFile g = true
      · simp only [clearGo, hg1, hg2, Bool.false_eq_true, if_false, if_true]
        exact ⟨fun he => by simp at he,
          fun b hb => absurd hb (List.not_mem_nil b)⟩
      · by_cases hm : opts.manyToMany
        · simp only [clearGo, hg1, hg2, hm, Bool.false_eq_true, if_false,
            if_true]
          have hcol' : f ∉ collected ++ [g] := by
            intro hmem
            rcases List.mem_append.mp hmem with h | h
            · exact hcol h
            · rw [List.mem_singleton] at h
              exact hfg h
          obtain ⟨ih1, ih2⟩ := ih (collected ++ [g]) hcol'
          refine ⟨?_, ih2⟩
          intro he hmem
          rcases List.mem_cons.mp hmem with h | h
          · exact absurd h hfg
          · exact ih1 he h
        · simp only [clearGo, hg1, hg2, hm, Bool.false_eq_true, if_false,
            if_true]
          obtain ⟨ih1, ih2⟩ := ih collected hcol
          refine ⟨?_, ?_⟩
          · intro he hmem
            rcases List.mem_cons.mp hmem with h | h
            · exact absurd h hfg
            · exact List.mem_cons_of_mem _ (ih1 he h)
          · intro b hb
            rcases List.mem_cons.mp hb with h | h
            · subst h
              intro hmem
              rw [List.mem_singleton] at hmem
              exact hfg hmem
            · exact ih2 b h

/-- C10: at the public stream interface, every null-content input is
forwarded downstream unchanged on an error- and stall-free run, belongs
to no batch handed to a task proxy (so no fingerprint, cache lookup or
write concerns it), and is never written into the wrapped task — in both
cardinality modes and in both the caching and invalidation entry
points. -/
theorem null_input_forwarded (opts : Opts) (store : Store)
    (taskBeh : List VFile → List TaskEvent) (m0 : Nat)
    (inputs : List VFile) (f : VFile)
    (hnull : isNullFile f = true) (hmem : f ∈ inputs)
    (hce : (cacheTaskRun opts store taskBeh m0 inputs).errored = none)
    (hcs : (cacheTaskRun opts store taskBeh m0 inputs).stalled = false)
    (hre : (cacheClearRun opts inputs).errored = none) :
    f ∈ (cacheTaskRun opts store taskBeh m0 inputs).outputs ∧
    (∀ b ∈ (cacheTaskRun opts store taskBeh m0 inputs).processed, f ∉ b) ∧
    f ∉ (cacheTaskRun opts store taskBeh m0 inputs).written ∧
    f ∈ (cacheClearRun opts inputs).outputs ∧
    (∀ b ∈ (cacheClearRun opts inputs).processed, f ∉ b) := by
  obtain ⟨h1, h2, h3⟩ := streamGo_null opts taskBeh m0 f hnull inputs store []
    (List.not_mem_nil f)
  obtain ⟨h4, h5⟩ := clearGo_null opts f hnull inputs [] (List.not_mem_nil f)
  exact ⟨h1 hce hcs hmem, h2, h3, h4 hre hmem, h5⟩

/-- Witness for C10 at a concrete two-file stream with one null input. -/
theorem null_input_forwarded_witness :
    sampleNull ∈
      (cacheTaskRun (defaultOpts "v1" false) [] oneOutBeh 0
        [sampleNull, sampleIn]).outputs ∧
    sampleNull ∉
      (cacheTaskRun (defaultOpts "v1" false) [] oneOutBeh 0
        [sampleNull, sampleIn]).written ∧
    sampleNull ∉ [sampleIn] ∧
    sampleNull ∈
      (cacheClearRun (defaultOpts "v1" false) [sampleNull, sampleIn]).outputs := by
  have h := null_input_forwarded (defaultOpts "v1" false) [] oneOutBeh 0
    [sampleNull, sampleIn] sampleNull rfl (List.mem_cons_self _ _)
    rfl rfl rfl
  refine ⟨h.1, h.2.2.1, ?_, h.2.2.2.1⟩
  intro hmem
  rw [List.mem_singleton] at hmem
  exact absurd (congrArg VFile.contents hmem) (by simp [sampleNull, sampleIn])

end GulpCache
